import Mathlib

/-!
Verification of the ert-manifest extraction pipeline.

This file shallowly embeds the core of the Rust sources (src/types.rs,
src/stats.rs, src/inference.rs, src/privacy/bucketing.rs,
src/privacy/suppression.rs, src/privacy/recoding.rs, src/readers/csv.rs)
as executable Lean definitions and proves properties about them.

Modelling conventions:
* Rust `u64`/`usize` counters are modelled as `Nat`, `i64` as `Int`.
* Rust `f64` is modelled as `ℚ`; `f64::sqrt` (used only for the emitted
  standard deviation) is supplied by an oracle function.
* Leaf predicates whose Rust implementations rest on external machinery
  (the `str::parse` float and integer parsers, the regex and chrono based
  date recognisers, the regex based value-pattern matcher together with the
  census name lists, and the multilingual column-name lexicon) are bundled
  in an `Oracle` structure: the pipeline is embedded as a function of the
  oracle and the theorems quantify over it.
* Rust iterates `HashSet`/`HashMap` contents in an unspecified, per-process
  randomised order.  The one place the pipeline iterates a `HashSet`
  (building `unique_values` of a Safe/Warning column) is therefore
  parameterised by a `shuffle` function modelling that iteration order;
  faithful instantiations are exactly the permutation-valued ones.
-/

namespace ErtManifest

/-! ## Constants (src/types.rs) -/

def MAX_SHORT_STRING_LEN : Nat := 32

def MAX_UNIQUE_VALUES : Nat := 2000

def DEFAULT_K_ANONYMITY : Nat := 5

def TYPE_INFERENCE_SAMPLE_SIZE : Nat := 2000

/-! ## Data model (src/types.rs) -/

/-- `SafeValue` from src/types.rs; `Float` carries the ℚ model of `f64`. -/
inductive SafeValue where
  | Integer (n : Int)
  | Float (x : ℚ)
  | Boolean (b : Bool)
  | ShortString (s : String)
  | Suppressed (reason : String)
deriving DecidableEq, Repr

/-- `SafeValue::from_string`: suppress strings longer than 32 bytes. -/
def SafeValue.from_string (s : String) (reason_if_too_long : String) : SafeValue :=
  if s.utf8ByteSize > MAX_SHORT_STRING_LEN then
    SafeValue.Suppressed reason_if_too_long
  else
    SafeValue.ShortString s

/-- `DType` from src/types.rs. -/
inductive DType where
  | Integer
  | Numeric
  | String
  | Date
  | Datetime
  | Boolean
  | FreeText
deriving DecidableEq, Repr

/-- `Classification` from src/types.rs. -/
inductive Classification where
  | Safe
  | Warning
  | Phi
  | Recode
  | HighCardinality
deriving DecidableEq, Repr

/-- `ColumnStats` from src/types.rs (`mean`, `std_dev`, `median` are raw
`f64` values in the source, modelled as raw `ℚ`). -/
structure ColumnStats where
  count : Option SafeValue
  missing_count : Option SafeValue
  min : Option SafeValue
  max : Option SafeValue
  mean : Option ℚ
  std_dev : Option ℚ
  median : Option ℚ
  unique_count : Option SafeValue
deriving DecidableEq, Repr

/-- `ColumnStats::default()`: every field absent. -/
def ColumnStats.default : ColumnStats :=
  { count := none, missing_count := none, min := none, max := none,
    mean := none, std_dev := none, median := none, unique_count := none }

/-- `ColumnSchema` from src/types.rs. -/
structure ColumnSchema where
  name : SafeValue
  index : Nat
  dtype : DType
  classification : Classification
  stats : Option ColumnStats
  unique_values : Option (List SafeValue)
  warnings : List String
deriving DecidableEq, Repr

/-- `ColumnSchema::new`. -/
def ColumnSchema.new (name : SafeValue) (index : Nat) (dtype : DType) : ColumnSchema :=
  { name := name, index := index, dtype := dtype,
    classification := Classification.Safe, stats := none,
    unique_values := none, warnings := [] }

/-- `SheetSchema` from src/types.rs. -/
structure SheetSchema where
  name : String
  index : Nat
  row_count : SafeValue
  columns : List ColumnSchema
  warnings : List String
deriving DecidableEq, Repr

/-- `SheetSchema::new`. -/
def SheetSchema.new (name : String) (index : Nat) : SheetSchema :=
  { name := name, index := index, row_count := SafeValue.Integer 0,
    columns := [], warnings := [] }

/-- `FileFormat` from src/types.rs. -/
inductive FileFormat where
  | Csv
  | Tsv
  | Excel
deriving DecidableEq, Repr

/-- `ProcessingOptions` from src/types.rs. -/
structure ProcessingOptions where
  k_anonymity : Nat
  bucket_counts : Bool
  exact_counts : Bool
  exact_median : Bool
  hash_file : Bool
  relaxed : Bool
deriving DecidableEq, Repr

/-- `ProcessingOptions::default()`. -/
def ProcessingOptions.default : ProcessingOptions :=
  { k_anonymity := DEFAULT_K_ANONYMITY, bucket_counts := true,
    exact_counts := false, exact_median := false,
    hash_file := true, relaxed := false }

/-- `ManifestSchema` from src/types.rs. -/
structure ManifestSchema where
  version : String
  file_name : String
  file_hash : Option String
  format : FileFormat
  sheets : List SheetSchema
  warnings : List String
  options : ProcessingOptions
deriving DecidableEq, Repr

/-! ## Character-level string helpers

Lean's own `String.trim`, `String.toLower`, `String.le` and substring
search are implemented over byte positions with well-founded recursion, so
they do not evaluate inside the kernel.  The embedding therefore uses the
following structurally recursive character-level models of the
corresponding Rust `str` operations. -/

/-- Rust `str::trim`: strip leading and trailing whitespace. -/
def rustTrim (s : String) : String :=
  String.mk
    (((s.data.dropWhile Char.isWhitespace).reverse.dropWhile Char.isWhitespace).reverse)

/-- Rust `str::to_lowercase` (its effect on the ASCII strings compared by
this code base). -/
def lowerString (s : String) : String :=
  String.mk (s.data.map Char.toLower)

/-- Boolean prefix test on character lists. -/
def isPrefixB : List Char → List Char → Bool
  | [], _ => true
  | _ :: _, [] => false
  | a :: as, b :: bs => a == b && isPrefixB as bs

/-- Boolean substring test on character lists (Rust `str::contains` with a
string pattern). -/
def containsSub (hay needle : List Char) : Bool :=
  match hay with
  | [] => needle.isEmpty
  | _ :: rest => isPrefixB needle hay || containsSub rest needle

/-- Lexicographic order on character lists: Rust's `Ord` on `String` is
byte-lexicographic, which agrees with code-point order under UTF-8. -/
def leCharList : List Char → List Char → Bool
  | [], _ => true
  | _ :: _, [] => false
  | a :: as, b :: bs => if a == b then leCharList as bs else decide (a < b)

/-! ## Token classifier (src/inference.rs): fully embedded parts -/

/-- `MISSING_TOKENS` from src/inference.rs. -/
def MISSING_TOKENS : List String :=
  ["", "NA", "N/A", "na", "n/a", "NULL", "null", "NaN", "nan", ".", "-", "--",
   "missing", "MISSING", "None", "none",
   "#N/A", "#VALUE!", "#REF!", "#DIV/0!", "#NUM!", "#NAME?", "#NULL!"]

/-- `TRUE_TOKENS` from src/inference.rs. -/
def TRUE_TOKENS : List String := ["true", "yes", "y", "1", "t"]

/-- `FALSE_TOKENS` from src/inference.rs. -/
def FALSE_TOKENS : List String := ["false", "no", "n", "0", "f"]

/-- Rust `str::eq_ignore_ascii_case` (both `Char.toLower` and the Rust
function lower-case exactly the ASCII letters). -/
def eqIgnoreAsciiCase (a b : String) : Bool :=
  (a.data.map Char.toLower) == (b.data.map Char.toLower)

/-- `is_missing` from src/inference.rs. -/
def is_missing (value : String) : Bool :=
  MISSING_TOKENS.any (fun t => eqIgnoreAsciiCase (rustTrim value) t)

/-- `is_boolean` from src/inference.rs. -/
def is_boolean (value : String) : Bool :=
  let lower := lowerString (rustTrim value)
  TRUE_TOKENS.contains lower || FALSE_TOKENS.contains lower

/-! ## The oracle for external leaf functions -/

/-- `ValuePatternResult` from src/privacy/value_patterns.rs. -/
structure ValuePatternResult where
  is_phi : Bool
  matched_pattern : Option String
  description : Option String
deriving DecidableEq, Repr

/-- `ValuePatternResult::safe()`. -/
def ValuePatternResult.safe : ValuePatternResult :=
  { is_phi := false, matched_pattern := none, description := none }

/-- `ValuePatternResult::phi(pattern, description)`. -/
def ValuePatternResult.phi (pat desc : String) : ValuePatternResult :=
  { is_phi := true, matched_pattern := some pat, description := some desc }

/-- `ColumnNameResult` from src/privacy/column_names.rs. -/
structure ColumnNameResult where
  classification : Classification
  matched_pattern : Option String
  warning : Option String
deriving DecidableEq, Repr

/-- `ColumnNameResult::safe()`. -/
def ColumnNameResult.safe : ColumnNameResult :=
  { classification := Classification.Safe, matched_pattern := none, warning := none }

/-- `ColumnNameResult::phi(pattern)`. -/
def ColumnNameResult.phi (pat : String) : ColumnNameResult :=
  { classification := Classification.Phi, matched_pattern := some pat,
    warning := some ("Column name matches PHI pattern \x27" ++ pat ++ "\x27; values suppressed") }

/-- `ColumnNameResult::recode(pattern)`. -/
def ColumnNameResult.recode (pat : String) : ColumnNameResult :=
  { classification := Classification.Recode, matched_pattern := some pat,
    warning := some ("Column name matches site-identifying pattern \x27" ++ pat
      ++ "\x27; values will be recoded") }

/-- `ColumnNameResult::warning(pattern)` (renamed: Lean reserves the
`warning` name for the structure field). -/
def ColumnNameResult.warn (pat : String) : ColumnNameResult :=
  { classification := Classification.Warning, matched_pattern := some pat,
    warning := some ("Column name matches potentially sensitive pattern \x27" ++ pat
      ++ "\x27; review recommended") }

/-- Bundle of the leaf recognisers whose Rust implementations rest on
external machinery, over which the pipeline embedding is parametric:

* `is_integer` models `inference::is_integer` (an `i64` parse test);
* `parse_numeric` models `inference::parse_numeric`
  (`value.trim().parse::<f64>().ok()`); `inference::is_numeric` is the same
  parse performed as a test, see `Oracle.is_numeric` below;
* `is_date` / `is_datetime` model the regex/chrono recognisers of
  src/inference.rs;
* `sqrt` models `f64::sqrt` (used only by `WelfordStats::std_dev`);
* `check_value_pattern` models `value_patterns::check_value_pattern`
  (regex recognisers plus `name_lists::is_likely_name`, whose name-list
  module is not among the sources);
* `check_column_name` models `column_names::check_column_name`
  (the multilingual PHI/recode/warn lexicon). -/
structure Oracle where
  is_integer : String → Bool
  parse_numeric : String → Option ℚ
  is_date : String → Bool
  is_datetime : String → Bool
  sqrt : ℚ → ℚ
  check_value_pattern : String → ValuePatternResult
  check_column_name : String → ColumnNameResult

/-- `is_numeric` from src/inference.rs: the same `f64` parse as
`parse_numeric`, used as a test (an empty trimmed string never parses). -/
def Oracle.is_numeric (o : Oracle) (value : String) : Bool :=
  (o.parse_numeric value).isSome

/-! ## Bucketing (src/privacy/bucketing.rs) -/

/-- `bucket_count` from src/privacy/bucketing.rs. -/
def bucket_count (n : Nat) : String :=
  if n = 0 then "0"
  else if n = 1 then "1"
  else if n ≤ 5 then "2-5"
  else if n ≤ 10 then "6-10"
  else if n ≤ 20 then "11-20"
  else if n ≤ 100 then "21-100"
  else if n ≤ 1000 then "101-1000"
  else ">1000"

/-- `safe_count` from src/privacy/bucketing.rs. -/
def safe_count (n : Nat) (bucket : Bool) : SafeValue :=
  if bucket then SafeValue.ShortString (bucket_count n)
  else SafeValue.Integer (n : Int)

/-! ## Suppression engine (src/privacy/suppression.rs) -/

/-- `SuppressionReason` from src/privacy/suppression.rs. -/
inductive SuppressionReason where
  | BelowKThreshold (count : Nat) (k : Nat)
  | PhiColumn (pat : String)
  | PhiValue (pat : String) (description : String)
  | TooLong (length : Nat) (max : Nat)
  | HighCardinality
deriving DecidableEq, Repr

/-- `SuppressionReason::to_string`. -/
def SuppressionReason.to_string : SuppressionReason → String
  | SuppressionReason.BelowKThreshold count k =>
      "Count " ++ toString count ++ " below k-anonymity threshold " ++ toString k
  | SuppressionReason.PhiColumn pat =>
      "Column matches PHI pattern \x27" ++ pat ++ "\x27"
  | SuppressionReason.PhiValue pat description =>
      description ++ " (pattern: " ++ pat ++ ")"
  | SuppressionReason.TooLong length max =>
      "Value length " ++ toString length ++ " exceeds maximum " ++ toString max
  | SuppressionReason.HighCardinality =>
      "High cardinality column; unique values suppressed"

/-- `should_suppress_value` from src/privacy/suppression.rs
(`value.len()` is the byte length of the string). -/
def should_suppress_value (o : Oracle) (value : String) (count : Nat) (k : Nat)
    (column_classification : Classification) (phi_pattern : Option String) :
    Option SuppressionReason :=
  if column_classification = Classification.Phi then
    some (SuppressionReason.PhiColumn (phi_pattern.getD "unknown"))
  else if value.utf8ByteSize > MAX_SHORT_STRING_LEN then
    some (SuppressionReason.TooLong value.utf8ByteSize MAX_SHORT_STRING_LEN)
  else if count < k then
    some (SuppressionReason.BelowKThreshold count k)
  else
    let pattern_result := o.check_value_pattern value
    if pattern_result.is_phi then
      some (SuppressionReason.PhiValue (pattern_result.matched_pattern.getD "unknown")
        (pattern_result.description.getD "PHI detected"))
    else
      none

/-- `safe_string_value` from src/privacy/suppression.rs. -/
def safe_string_value (o : Oracle) (value : String) (count : Nat) (k : Nat)
    (column_classification : Classification) (phi_pattern : Option String) : SafeValue :=
  match should_suppress_value o value count k column_classification phi_pattern with
  | some reason => SafeValue.Suppressed reason.to_string
  | none => SafeValue.ShortString value

/-- `is_safe_for_export` from src/privacy/suppression.rs. -/
def is_safe_for_export (o : Oracle) (value : String) (count : Nat) (k : Nat)
    (column_classification : Classification) : Bool :=
  (should_suppress_value o value count k column_classification none).isNone

/-! ## Generic list helpers used by the embedding -/

/-- In-place update of one list element (models indexed mutation of a Rust
`Vec` element). -/
def listModify {α : Type} : List α → Nat → (α → α) → List α
  | [], _, _ => []
  | a :: as, 0, f => f a :: as
  | a :: as, n + 1, f => a :: listModify as n f

/-- Insert into a sorted list, for `insertionSort`. -/
def insertSorted {α : Type} (le : α → α → Bool) (a : α) : List α → List α
  | [] => [a]
  | b :: bs => if le a b then a :: b :: bs else b :: insertSorted le a bs

/-- Sort by a total boolean order (models Rust's in-place slice sorts,
`sort` and `sort_by`). -/
def insertionSort {α : Type} (le : α → α → Bool) : List α → List α
  | [] => []
  | a :: as => insertSorted le a (insertionSort le as)

/-- Boolean order on ℚ (models `f64` comparison via `partial_cmp`). -/
def leQ (a b : ℚ) : Bool := decide (a ≤ b)

/-- Boolean order on strings (Rust `Ord` on `String`). -/
def leS (a b : String) : Bool := leCharList a.data b.data

/-- Association-list update of an existing key (models mutation through
`HashMap::get_mut`). -/
def assocUpdate {β : Type} : List (Nat × β) → Nat → β → List (Nat × β)
  | [], _, _ => []
  | (k0, b0) :: rest, k, b =>
      if k0 == k then (k, b) :: rest else (k0, b0) :: assocUpdate rest k b

/-- Association-list insertion (models `HashMap::insert`). -/
def assocInsert {β : Type} (l : List (Nat × β)) (k : Nat) (b : β) : List (Nat × β) :=
  if (l.lookup k).isSome then assocUpdate l k b else l ++ [(k, b)]

/-- `f64::round` (half away from zero) followed by `as usize`, for the
non-negative arguments arising in `P2Quantile::quantile`. -/
def rustRoundNat (x : ℚ) : Nat := (Int.floor (x + 1 / 2)).toNat

/-! ## Online statistics (src/stats.rs) -/

/-- `WelfordStats` from src/stats.rs. -/
structure WelfordStats where
  count : Nat
  mean : ℚ
  m2 : ℚ
  min : Option ℚ
  max : Option ℚ
deriving DecidableEq, Repr

/-- `WelfordStats::new`. -/
def WelfordStats.new : WelfordStats :=
  { count := 0, mean := 0, m2 := 0, min := none, max := none }

/-- `WelfordStats::update`. -/
def WelfordStats.update (s : WelfordStats) (value : ℚ) : WelfordStats :=
  let count := s.count + 1
  let delta := value - s.mean
  let mean := s.mean + delta / (count : ℚ)
  let delta2 := value - mean
  { count := count, mean := mean, m2 := s.m2 + delta * delta2,
    min := some (match s.min with | none => value | some m => Min.min m value),
    max := some (match s.max with | none => value | some m => Max.max m value) }

/-- `WelfordStats::mean()` (the getter wrapping the field in an `Option`). -/
def WelfordStats.meanOpt (s : WelfordStats) : Option ℚ :=
  if s.count > 0 then some s.mean else none

/-- `WelfordStats::variance()`. -/
def WelfordStats.variance (s : WelfordStats) : Option ℚ :=
  if s.count > 1 then some (s.m2 / ((s.count - 1 : Nat) : ℚ)) else none

/-- `WelfordStats::std_dev()`; the square root is the oracle's `sqrt`. -/
def WelfordStats.std_dev (sqrt : ℚ → ℚ) (s : WelfordStats) : Option ℚ :=
  s.variance.map sqrt

/-- `P2Quantile` from src/stats.rs: the Jain–Chlamtac P² streaming quantile
estimator.  The five marker heights `q`, positions `n`, desired positions
`n_prime` and increments `dn` are length-5 lists. -/
structure P2Quantile where
  p : ℚ
  q : List ℚ
  n : List Int
  n_prime : List ℚ
  dn : List ℚ
  count : Nat
  initialized : Bool
  initial_values : List ℚ
deriving DecidableEq, Repr

/-- `P2Quantile::new(p)`. -/
def P2Quantile.new (p : ℚ) : P2Quantile :=
  { p := p, q := List.replicate 5 0, n := [1, 2, 3, 4, 5],
    n_prime := [1, 1 + 2 * p, 1 + 4 * p, 3 + 2 * p, 5],
    dn := [0, p / 2, p, (1 + p) / 2, 1],
    count := 0, initialized := false, initial_values := [] }

/-- `P2Quantile::median()`. -/
def P2Quantile.median : P2Quantile := P2Quantile.new (1 / 2)

/-- `P2Quantile::parabolic` (the P² marker-height formula). -/
def P2Quantile.parabolic (q : List ℚ) (n : List Int) (i : Nat) (d : ℚ) : ℚ :=
  let qi := q.getD i 0
  let qi_m1 := q.getD (i - 1) 0
  let qi_p1 := q.getD (i + 1) 0
  let ni : ℚ := (n.getD i 0 : Int)
  let ni_m1 : ℚ := (n.getD (i - 1) 0 : Int)
  let ni_p1 : ℚ := (n.getD (i + 1) 0 : Int)
  qi + (d / (ni_p1 - ni_m1))
    * ((ni - ni_m1 + d) * (qi_p1 - qi) / (ni_p1 - ni)
      + (ni_p1 - ni - d) * (qi - qi_m1) / (ni - ni_m1))

/-- `P2Quantile::linear` (the linear fallback formula). -/
def P2Quantile.linear (q : List ℚ) (n : List Int) (i : Nat) (d : Int) : ℚ :=
  let qi := q.getD i 0
  let q_adj := if d > 0 then q.getD (i + 1) 0 else q.getD (i - 1) 0
  let ni : ℚ := (n.getD i 0 : Int)
  let n_adj : ℚ := if d > 0 then ((n.getD (i + 1) 0 : Int) : ℚ) else ((n.getD (i - 1) 0 : Int) : ℚ)
  qi + (d : ℚ) * (q_adj - qi) / (n_adj - ni)

/-- One iteration of the interior marker-adjustment loop (`for i in 1..4`)
of `P2Quantile::update`, acting on the current heights and positions. -/
def P2Quantile.adjustMarker (np : List ℚ) (state : List ℚ × List Int) (i : Nat) :
    List ℚ × List Int :=
  let q := state.1
  let n := state.2
  let d : ℚ := np.getD i 0 - ((n.getD i 0 : Int) : ℚ)
  if (d ≥ 1 ∧ n.getD (i + 1) 0 - n.getD i 0 > 1)
      ∨ (d ≤ -1 ∧ n.getD (i - 1) 0 - n.getD i 0 < -1) then
    let d_sign : Int := if d ≥ 0 then 1 else -1
    let q_new := P2Quantile.parabolic q n i (d_sign : ℚ)
    let qi :=
      if q.getD (i - 1) 0 < q_new ∧ q_new < q.getD (i + 1) 0 then q_new
      else P2Quantile.linear q n i d_sign
    (q.set i qi, n.set i (n.getD i 0 + d_sign))
  else state

/-- `P2Quantile::update`. -/
def P2Quantile.update (t : P2Quantile) (x : ℚ) : P2Quantile :=
  let count := t.count + 1
  if !t.initialized then
    let iv := t.initial_values ++ [x]
    if iv.length == 5 then
      let sorted := insertionSort leQ iv
      { t with count := count, initial_values := sorted, q := sorted, initialized := true }
    else
      { t with count := count, initial_values := iv }
  else
    let q := t.q
    let cell : List ℚ × Nat :=
      if x < q.getD 0 0 then (q.set 0 x, 0)
      else if x < q.getD 1 0 then (q, 0)
      else if x < q.getD 2 0 then (q, 1)
      else if x < q.getD 3 0 then (q, 2)
      else if x < q.getD 4 0 then (q, 3)
      else (q.set 4 x, 3)
    let k := cell.2
    let n1 := t.n.mapIdx (fun i v => if k + 1 ≤ i then v + 1 else v)
    let np1 := List.zipWith (· + ·) t.n_prime t.dn
    let adjusted := [1, 2, 3].foldl (P2Quantile.adjustMarker np1) (cell.1, n1)
    { t with count := count, q := adjusted.1, n := adjusted.2, n_prime := np1 }

/-- `P2Quantile::quantile`. -/
def P2Quantile.quantile (t : P2Quantile) : Option ℚ :=
  if !t.initialized then
    if t.initial_values.isEmpty then none
    else
      let sorted := insertionSort leQ t.initial_values
      let idx := rustRoundNat (((sorted.length - 1 : Nat) : ℚ) * t.p)
      some (sorted.getD idx 0)
  else
    some (t.q.getD 2 0)

/-- `CappedUniqueTracker` from src/stats.rs.  The `HashSet` of distinct
values is modelled as a duplicate-free list in insertion order; the
`HashMap` of counts as an association list. -/
structure CappedUniqueTracker where
  values : List String
  max_values : Nat
  high_cardinality : Bool
  value_counts : List (String × Nat)
deriving DecidableEq, Repr

/-- `CappedUniqueTracker::new`. -/
def CappedUniqueTracker.new (max_values : Nat) : CappedUniqueTracker :=
  { values := [], max_values := max_values, high_cardinality := false, value_counts := [] }

/-- `*self.value_counts.entry(value).or_insert(0) += 1`. -/
def bumpCount : List (String × Nat) → String → List (String × Nat)
  | [], v => [(v, 1)]
  | (k, c) :: rest, v =>
      if k == v then (k, c + 1) :: rest else (k, c) :: bumpCount rest v

/-- `self.values.insert(value)` on the `HashSet` model. -/
def insertValue (l : List String) (v : String) : List String :=
  if l.contains v then l else l ++ [v]

/-- `CappedUniqueTracker::add`. -/
def CappedUniqueTracker.add (t : CappedUniqueTracker) (value : String) : CappedUniqueTracker :=
  if t.high_cardinality then t
  else
    let value_counts := bumpCount t.value_counts value
    let values := insertValue t.values value
    if values.length > t.max_values then
      { t with high_cardinality := true, values := [], value_counts := [] }
    else
      { t with values := values, value_counts := value_counts }

/-- `CappedUniqueTracker::is_high_cardinality`. -/
def CappedUniqueTracker.is_high_cardinality (t : CappedUniqueTracker) : Bool :=
  t.high_cardinality

/-- `CappedUniqueTracker::unique_count`. -/
def CappedUniqueTracker.unique_count (t : CappedUniqueTracker) : Nat :=
  t.values.length

/-- `CappedUniqueTracker::values()` (returns nothing once sealed). -/
def CappedUniqueTracker.valuesOpt (t : CappedUniqueTracker) : Option (List String) :=
  if t.high_cardinality then none else some t.values

/-- `CappedUniqueTracker::value_counts()` (returns nothing once sealed). -/
def CappedUniqueTracker.value_countsOpt (t : CappedUniqueTracker) :
    Option (List (String × Nat)) :=
  if t.high_cardinality then none else some t.value_counts

/-- `ColumnStatTracker` from src/stats.rs. -/
structure ColumnStatTracker where
  welford : WelfordStats
  p2_median : P2Quantile
  missing_count : Nat
  unique_tracker : CappedUniqueTracker
deriving DecidableEq, Repr

/-- `ColumnStatTracker::new`. -/
def ColumnStatTracker.new (max_unique : Nat) : ColumnStatTracker :=
  { welford := WelfordStats.new, p2_median := P2Quantile.median,
    missing_count := 0, unique_tracker := CappedUniqueTracker.new max_unique }

/-- `ColumnStatTracker::update_numeric`. -/
def ColumnStatTracker.update_numeric (t : ColumnStatTracker) (value : ℚ)
    (raw_value : String) : ColumnStatTracker :=
  { t with
    welford := t.welford.update value,
    p2_median := t.p2_median.update value,
    unique_tracker := t.unique_tracker.add raw_value }

/-- `ColumnStatTracker::update_string`. -/
def ColumnStatTracker.update_string (t : ColumnStatTracker) (value : String) :
    ColumnStatTracker :=
  { t with unique_tracker := t.unique_tracker.add value }

/-- `ColumnStatTracker::update_missing`. -/
def ColumnStatTracker.update_missing (t : ColumnStatTracker) : ColumnStatTracker :=
  { t with missing_count := t.missing_count + 1 }

/-! ## Recoder (src/privacy/recoding.rs) -/

/-- `index_to_label` from src/privacy/recoding.rs: 0 ↦ A, …, 25 ↦ Z,
26 ↦ AA, … -/
def index_to_label (n : Nat) : String :=
  if n < 26 then String.mk [Char.ofNat (65 + n)]
  else index_to_label (n / 26 - 1) ++ String.mk [Char.ofNat (65 + n % 26)]
termination_by n
decreasing_by
  have h26 : n / 26 ≤ n := Nat.div_le_self n 26
  omega

/-- `ValueRecoder` from src/privacy/recoding.rs.  The `HashMap` of mappings
is modelled as an association list in insertion order; the source field
`prefix` is called `label_prefix` (Lean reserves `prefix`). -/
structure ValueRecoder where
  mappings : List (String × String)
  counter : Nat
  label_prefix : String
deriving DecidableEq, Repr

/-- `ValueRecoder::new(prefix)`. -/
def ValueRecoder.new (pfx : String) : ValueRecoder :=
  { mappings := [], counter := 0, label_prefix := pfx }

/-- `ValueRecoder::generate_label` (returns the label and the mutated
recoder). -/
def ValueRecoder.generate_label (r : ValueRecoder) : String × ValueRecoder :=
  (r.label_prefix ++ "_" ++ index_to_label r.counter, { r with counter := r.counter + 1 })

/-- `ValueRecoder::recode` (returns the label and the mutated recoder). -/
def ValueRecoder.recode (r : ValueRecoder) (original : String) : String × ValueRecoder :=
  match r.mappings.lookup original with
  | some recoded => (recoded, r)
  | none =>
      let gl := r.generate_label
      (gl.1, { gl.2 with mappings := gl.2.mappings ++ [(original, gl.1)] })

/-- `ValueRecoder::count`. -/
def ValueRecoder.mappingCount (r : ValueRecoder) : Nat := r.mappings.length

/-- `RecodeRegistry` from src/privacy/recoding.rs (both `HashMap`s modelled
as association lists keyed by column index). -/
structure RecodeRegistry where
  recoders : List (Nat × ValueRecoder)
  column_names : List (Nat × String)
deriving DecidableEq, Repr

/-- `RecodeRegistry::new`. -/
def RecodeRegistry.new : RecodeRegistry :=
  { recoders := [], column_names := [] }

/-- `RecodeRegistry::register_column`. -/
def RecodeRegistry.register_column (reg : RecodeRegistry) (column_index : Nat)
    (column_name : String) (pfx : String) : RecodeRegistry :=
  { recoders := assocInsert reg.recoders column_index (ValueRecoder.new pfx),
    column_names := assocInsert reg.column_names column_index column_name }

/-- `RecodeRegistry::recode` (returns the optional label and the mutated
registry). -/
def RecodeRegistry.recode (reg : RecodeRegistry) (column_index : Nat)
    (original : String) : Option String × RecodeRegistry :=
  match reg.recoders.lookup column_index with
  | none => (none, reg)
  | some r =>
      let lr := r.recode original
      (some lr.1, { reg with recoders := assocUpdate reg.recoders column_index lr.2 })

/-- `RecodeRegistry::is_recoded`. -/
def RecodeRegistry.is_recoded (reg : RecodeRegistry) (column_index : Nat) : Bool :=
  (reg.recoders.lookup column_index).isSome

/-- `RecodeRegistry::get_recoded_values` (the `HashMap` values are
collected and sorted). -/
def RecodeRegistry.get_recoded_values (reg : RecodeRegistry) (column_index : Nat) :
    Option (List String) :=
  (reg.recoders.lookup column_index).map
    (fun r => insertionSort leS (r.mappings.map Prod.snd))

/-- `RecodeRegistry::has_recodings`. -/
def RecodeRegistry.has_recodings (reg : RecodeRegistry) : Bool :=
  reg.recoders.any (fun p => p.2.mappingCount > 0)

/-! ## Type inferencer (src/inference.rs) -/

/-- `TypeInferencer` from src/inference.rs. -/
structure TypeInferencer where
  current_type : Option DType
  samples : List String
  max_samples : Nat
  values_seen : Nat
  initial_inference_done : Bool
  free_text_count : Nat
deriving DecidableEq, Repr

/-- `TypeInferencer::new`. -/
def TypeInferencer.new : TypeInferencer :=
  { current_type := none, samples := [], max_samples := TYPE_INFERENCE_SAMPLE_SIZE,
    values_seen := 0, initial_inference_done := false, free_text_count := 0 }

/-- `TypeInferencer::inferred_type`. -/
def TypeInferencer.inferred_type (t : TypeInferencer) : DType :=
  t.current_type.getD DType.String

/-- `TypeInferencer::perform_initial_inference`. -/
def TypeInferencer.perform_initial_inference (o : Oracle) (t : TypeInferencer) :
    TypeInferencer :=
  if t.samples.isEmpty then
    { t with current_type := some DType.String, initial_inference_done := true }
  else
    let dtype :=
      if t.samples.all is_boolean then DType.Boolean
      else if t.samples.all o.is_integer then DType.Integer
      else if t.samples.all o.is_numeric then DType.Numeric
      else if t.samples.all o.is_datetime then DType.Datetime
      else if t.samples.all o.is_date then DType.Date
      else DType.String
    { t with current_type := some dtype, initial_inference_done := true, samples := [] }

/-- `TypeInferencer::upgrade_type_if_needed`. -/
def TypeInferencer.upgrade_type_if_needed (o : Oracle) (t : TypeInferencer)
    (value : String) : TypeInferencer :=
  let current := t.current_type.getD DType.String
  let isFree := value.utf8ByteSize > 100 || value.data.contains '\n'
  let free_text_count := if isFree then t.free_text_count + 1 else t.free_text_count
  let t1 := { t with free_text_count := free_text_count }
  if isFree ∧ free_text_count > 10 ∧ current = DType.String then
    { t1 with current_type := some DType.FreeText }
  else
    match current with
    | DType.Integer =>
        if !o.is_integer value then
          if o.is_numeric value then { t1 with current_type := some DType.Numeric }
          else { t1 with current_type := some DType.String }
        else t1
    | DType.Numeric =>
        if !o.is_numeric value then { t1 with current_type := some DType.String } else t1
    | DType.Boolean =>
        if !is_boolean value then { t1 with current_type := some DType.String } else t1
    | DType.Date =>
        if o.is_datetime value then { t1 with current_type := some DType.Datetime }
        else if !o.is_date value then { t1 with current_type := some DType.String }
        else t1
    | DType.Datetime =>
        if !o.is_datetime value && !o.is_date value then
          { t1 with current_type := some DType.String }
        else t1
    | _ => t1

/-- `TypeInferencer::observe`. -/
def TypeInferencer.observe (o : Oracle) (t : TypeInferencer) (value : String) :
    TypeInferencer :=
  if is_missing value then t
  else
    let t1 := { t with values_seen := t.values_seen + 1 }
    if !t1.initial_inference_done then
      let t2 :=
        if t1.samples.length < t1.max_samples then
          { t1 with samples := t1.samples ++ [value] }
        else t1
      if t2.max_samples ≤ t2.samples.length then t2.perform_initial_inference o else t2
    else
      t1.upgrade_type_if_needed o value

/-- `TypeInferencer::finalize_initial_inference`. -/
def TypeInferencer.finalize_initial_inference (o : Oracle) (t : TypeInferencer) :
    TypeInferencer :=
  if !t.initial_inference_done && !t.samples.isEmpty then
    t.perform_initial_inference o
  else t

/-! ## The CSV column pipeline (src/readers/csv.rs) -/

/-- Rust `str::contains` with a string pattern. -/
def strContains (hay needle : String) : Bool :=
  containsSub hay.data needle.data

/-- `determine_recode_prefix` from src/readers/csv.rs. -/
def determine_recode_prefix (column_name : String) : String :=
  let lower := lowerString column_name
  if strContains lower "hospital" then "Hospital"
  else if strContains lower "clinic" then "Clinic"
  else if strContains lower "facility" then "Facility"
  else if strContains lower "center" || strContains lower "centre" then "Center"
  else if strContains lower "location" then "Location"
  else "Site"

/-- Registration loop of `read_with_recoding`: every Recode-classified
column is registered with the registry under the prefix chosen from its
header. -/
def registerRecodeColumns (headers : List String) (checks : List ColumnNameResult) :
    RecodeRegistry :=
  checks.enum.foldl
    (fun reg p =>
      if p.2.classification = Classification.Recode then
        reg.register_column p.1 (headers.getD p.1 "")
          ( determine_recode_prefix (headers.getD p.1 ""))
      else reg)
    RecodeRegistry.new

/-- Pass 1 over one record: each cell with index below `num_cols` is fed to
its column's type inferencer; cells beyond the header width are skipped. -/
def pass1Row (o : Oracle) (num_cols : Nat) (infs : List TypeInferencer)
    (row : List String) : List TypeInferencer :=
  row.enum.foldl
    (fun infs p =>
      if p.1 < num_cols then listModify infs p.1 (fun inf => inf.observe o p.2)
      else infs)
    infs

/-- Pass 1 over the whole row stream. -/
def pass1 (o : Oracle) (num_cols : Nat) (infs : List TypeInferencer)
    (rows : List (List String)) : List TypeInferencer :=
  rows.foldl (pass1Row o num_cols) infs

/-- Pass-2 treatment of one cell (the body of the inner loop of
`read_with_recoding`'s second pass): missing cells bump the missing
counter; cells of a recoded column are substituted by the recoder's label
before being tracked; numeric-typed cells that parse feed the numeric
estimators. -/
def processCell (o : Oracle) (dtype : DType) (col_idx : Nat) (field : String)
    (tracker : ColumnStatTracker) (reg : RecodeRegistry) :
    ColumnStatTracker × RecodeRegistry :=
  if is_missing field then (tracker.update_missing, reg)
  else
    let vr : String × RecodeRegistry :=
      if reg.is_recoded col_idx then
        let lr := reg.recode col_idx field
        (lr.1.getD field, lr.2)
      else (field, reg)
    match dtype with
    | DType.Integer | DType.Numeric =>
        match o.parse_numeric field with
        | some num => (tracker.update_numeric num vr.1, vr.2)
        | none => (tracker.update_string vr.1, vr.2)
    | _ => (tracker.update_string vr.1, vr.2)

/-- Pass 2 over a list of (index, cell) pairs from one record. -/
def pass2Cells (o : Oracle) (num_cols : Nat) (dtypes : List DType)
    (st : List ColumnStatTracker × RecodeRegistry) (cells : List (Nat × String)) :
    List ColumnStatTracker × RecodeRegistry :=
  cells.foldl
    (fun st p =>
      if p.1 < num_cols then
        let dtype := dtypes.getD p.1 DType.String
        let tr := st.1.getD p.1 (ColumnStatTracker.new MAX_UNIQUE_VALUES)
        let trreg := processCell o dtype p.1 p.2 tr st.2
        (st.1.set p.1 trreg.1, trreg.2)
      else st)
    st

/-- Pass 2 over one record. -/
def pass2Row (o : Oracle) (num_cols : Nat) (dtypes : List DType)
    (st : List ColumnStatTracker × RecodeRegistry) (row : List String) :
    List ColumnStatTracker × RecodeRegistry :=
  pass2Cells o num_cols dtypes st row.enum

/-- Pass 2 over the whole row stream. -/
def pass2 (o : Oracle) (num_cols : Nat) (dtypes : List DType)
    (st : List ColumnStatTracker × RecodeRegistry) (rows : List (List String)) :
    List ColumnStatTracker × RecodeRegistry :=
  rows.foldl (pass2Row o num_cols dtypes) st

/-- The `for value in values` filter of `read_with_recoding` building the
`unique_values` of a Safe/Warning column: keep a value when its tracked
count reaches the k-anonymity threshold, the value-pattern matcher clears
it, and it is at most 32 bytes long. -/
def buildUniqueValuesLoop (o : Oracle) (k_anonymity : Nat)
    (counts : Option (List (String × Nat))) (values : List String) : List SafeValue :=
  values.foldl
    (fun acc value =>
      let count := (counts.bind (fun c => c.lookup value)).getD 1
      if k_anonymity ≤ count then
        if !(o.check_value_pattern value).is_phi && value.utf8ByteSize ≤ 32 then
          acc ++ [SafeValue.ShortString value]
        else acc
      else acc)
    []

/-- Column-schema assembly of `read_with_recoding` (the body of its final
per-column loop).  `shuffle` models the unspecified iteration order of the
unique tracker's `HashSet`. -/
def buildColumn (o : Oracle) (shuffle : List String → List String)
    (options : ProcessingOptions) (reg : RecodeRegistry)
    (check : ColumnNameResult) (dtype : DType) (tracker : ColumnStatTracker)
    (col_idx : Nat) (header : String) : ColumnSchema :=
  let classification :=
    if tracker.unique_tracker.is_high_cardinality
        ∧ check.classification ≠ Classification.Recode
        ∧ check.classification ≠ Classification.Phi then
      Classification.HighCardinality
    else check.classification
  let name_value :=
    if classification = Classification.Phi then
      SafeValue.Suppressed "Column name matches PHI pattern"
    else SafeValue.from_string header "Column name too long"
  let warnings :=
    match check.warning with
    | some w => [w]
    | none => []
  let stats1 :=
    { ColumnStats.default with
      count := some (safe_count tracker.welford.count options.bucket_counts),
      missing_count := some (safe_count tracker.missing_count options.bucket_counts) }
  let stats2 :=
    match dtype with
    | DType.Integer | DType.Numeric =>
        { stats1 with
          min := tracker.welford.min.map SafeValue.Float,
          max := tracker.welford.max.map SafeValue.Float,
          mean := tracker.welford.meanOpt,
          std_dev := tracker.welford.std_dev o.sqrt,
          median := tracker.p2_median.quantile }
    | _ => stats1
  let unique_count := tracker.unique_tracker.unique_count
  let stats3 :=
    if tracker.unique_tracker.is_high_cardinality
        ∧ classification ≠ Classification.Recode then
      { stats2 with
        unique_count := some (SafeValue.Suppressed "High cardinality; exact count suppressed") }
    else if options.bucket_counts then
      { stats2 with unique_count := some (SafeValue.ShortString (bucket_count unique_count)) }
    else
      { stats2 with unique_count := some (SafeValue.Integer (unique_count : Int)) }
  let unique_values :=
    if classification = Classification.Recode then
      match reg.get_recoded_values col_idx with
      | some recoded =>
          let safe_values := recoded.map SafeValue.ShortString
          if safe_values.isEmpty then none else some safe_values
      | none => none
    else if classification = Classification.Safe
        ∨ classification = Classification.Warning then
      match tracker.unique_tracker.valuesOpt with
      | some vals =>
          let safe_values := buildUniqueValuesLoop o options.k_anonymity
            tracker.unique_tracker.value_countsOpt (shuffle vals)
          if safe_values.isEmpty then none else some safe_values
      | none => none
    else none
  { name := name_value, index := col_idx, dtype := dtype,
    classification := classification, stats := some stats3,
    unique_values := unique_values, warnings := warnings }

/-- `CsvReader::read_with_recoding` from src/readers/csv.rs, over an
abstract row stream (`headers` is the parsed header record, `rows` the data
records; both passes scan the same `rows`).  `shuffle` models the
unspecified `HashSet` iteration order used when assembling
`unique_values`. -/
def read_with_recoding (o : Oracle) (shuffle : List String → List String)
    (file_name : String) (headers : List String) (rows : List (List String))
    (options : ProcessingOptions) : SheetSchema × RecodeRegistry :=
  let num_cols := headers.length
  let column_checks := headers.map o.check_column_name
  let recode_registry := registerRecodeColumns headers column_checks
  let infs0 : List TypeInferencer := List.replicate num_cols TypeInferencer.new
  let infs1 := pass1 o num_cols infs0 rows
  let infs2 := infs1.map (fun inf => inf.finalize_initial_inference o)
  let dtypes := infs2.map (fun inf => inf.inferred_type)
  let trackers0 : List ColumnStatTracker :=
    List.replicate num_cols (ColumnStatTracker.new MAX_UNIQUE_VALUES)
  let st2 := pass2 o num_cols dtypes (trackers0, recode_registry) rows
  let columns := headers.enum.map
    (fun p =>
      buildColumn o shuffle options st2.2
        (column_checks.getD p.1 ColumnNameResult.safe)
        (dtypes.getD p.1 DType.String)
        (st2.1.getD p.1 (ColumnStatTracker.new MAX_UNIQUE_VALUES))
        p.1 p.2)
  let sheet : SheetSchema :=
    { name := file_name, index := 0,
      row_count := safe_count rows.length options.bucket_counts,
      columns := columns, warnings := [] }
  (sheet, st2.2)

/-! ## Manifest assembly (src/schema.rs, minus file I/O) and option
forcing (src/main.rs) -/

/-- The global-warning collection loop of `extract_schema`: each column
warning is lifted to a deduplicated global warning string. -/
def liftWarnings (sheets : List SheetSchema) : List String :=
  sheets.foldl
    (fun acc sheet =>
      sheet.columns.foldl
        (fun acc col =>
          col.warnings.foldl
            (fun acc w =>
              let gw := "Sheet \x27" ++ sheet.name ++ "\x27, Column "
                ++ toString (col.index + 1) ++ ": " ++ w
              if acc.contains gw then acc else acc ++ [gw])
            acc)
        acc)
    []

/-- `extract_schema` from src/schema.rs, minus file I/O: `file_hash` stands
for the SHA-256 of the raw file (a deterministic function of the file),
attached only when `options.hash_file` is set. -/
def extract_manifest (o : Oracle) (shuffle : List String → List String)
    (file_name : String) (format : FileFormat) (file_hash : String)
    (headers : List String) (rows : List (List String))
    (options : ProcessingOptions) : ManifestSchema × RecodeRegistry :=
  let sr := read_with_recoding o shuffle file_name headers rows options
  ({ version := "1.0.0", file_name := file_name,
     file_hash := if options.hash_file then some file_hash else none,
     format := format, sheets := [sr.1],
     warnings := liftWarnings [sr.1], options := options }, sr.2)

/-- The option assembly of the `Scan` command in src/main.rs: the
`exact_counts` and `exact_median` flags are and-ed with `relaxed` before
processing. -/
def scanOptions (k : Nat) (bucket_counts exact_counts exact_median hash_file
    relaxed : Bool) : ProcessingOptions :=
  { k_anonymity := k, bucket_counts := bucket_counts,
    exact_counts := exact_counts && relaxed,
    exact_median := exact_median && relaxed,
    hash_file := hash_file, relaxed := relaxed }

/-! ## Concrete oracle instances for witnesses and counterexamples

These instantiate the `Oracle` parameters on the small inputs used in the
concrete runs below, mirroring what the Rust leaf functions return on
exactly those inputs. -/

/-- Decimal value of a digit string. -/
def digitsToNat (s : List Char) : Nat :=
  s.foldl (fun acc c => acc * 10 + (c.toNat - 48)) 0

/-- A numeric parser for unsigned decimal literals: on such strings it
agrees exactly with Rust's `str::parse::<f64>` (and `::<i64>`), and it
rejects every other string used in the concrete runs below, as Rust
does. -/
def parseNumSimple (s : String) : Option ℚ :=
  let t := rustTrim s
  if t.length > 0 && t.data.all Char.isDigit then
    some ((digitsToNat t.data : Nat) : ℚ)
  else none

/-- The real lexicon's verdicts on the column names used in the concrete
runs: `ssn` is in the PHI list (matched pattern `ssn`), `site` and
`site_code` match the recode pattern `site`, and `col`, `arm`, `age` match
no pattern. -/
def testCheckColumnName (name : String) : ColumnNameResult :=
  if name == "ssn" then ColumnNameResult.phi "ssn"
  else if name == "site" then ColumnNameResult.recode "site"
  else if name == "site_code" then ColumnNameResult.recode "site"
  else ColumnNameResult.safe

/-- Oracle instance for the concrete runs.  The values appearing in those
runs (short digit strings, short lower-case letter strings, recode labels)
match none of the value-pattern regexes and none of the census name lists,
so `check_value_pattern` is constantly safe on them; none are dates or
datetimes; `sqrt` is never inspected by the stated properties. -/
def testOracle : Oracle :=
  { is_integer := fun s => (parseNumSimple s).isSome,
    parse_numeric := parseNumSimple,
    is_date := fun _ => false,
    is_datetime := fun _ => false,
    sqrt := fun _ => 0,
    check_value_pattern := fun _ => ValuePatternResult.safe,
    check_column_name := testCheckColumnName }

/-! ## Claim C6: the suppression cascade -/

/-- **C6.** For every candidate value `v`, occurrence count `c`,
classification and k-anonymity threshold `k`, `should_suppress_value`
decides by the first firing clause, in this exact order: (1) Phi column;
(2) byte length over 32; (3) count under `k`; (4) value-pattern PHI;
(5) otherwise no suppression, and `safe_string_value` emits
`ShortString v`. -/
theorem claim_C6_suppression_cascade (o : Oracle) (v : String) (c k : Nat)
    (cls : Classification) (pat : Option String) :
    (cls = Classification.Phi →
      should_suppress_value o v c k cls pat
        = some (SuppressionReason.PhiColumn (pat.getD "unknown"))) ∧
    (cls ≠ Classification.Phi → v.utf8ByteSize > 32 →
      should_suppress_value o v c k cls pat
        = some (SuppressionReason.TooLong v.utf8ByteSize 32)) ∧
    (cls ≠ Classification.Phi → v.utf8ByteSize ≤ 32 → c < k →
      should_suppress_value o v c k cls pat
        = some (SuppressionReason.BelowKThreshold c k)) ∧
    (cls ≠ Classification.Phi → v.utf8ByteSize ≤ 32 → k ≤ c →
      (o.check_value_pattern v).is_phi = true →
      should_suppress_value o v c k cls pat
        = some (SuppressionReason.PhiValue
            ((o.check_value_pattern v).matched_pattern.getD "unknown")
            ((o.check_value_pattern v).description.getD "PHI detected"))) ∧
    (cls ≠ Classification.Phi → v.utf8ByteSize ≤ 32 → k ≤ c →
      (o.check_value_pattern v).is_phi = false →
      should_suppress_value o v c k cls pat = none ∧
      safe_string_value o v c k cls pat = SafeValue.ShortString v) := by
  refine ⟨?_, ?_, ?_, ?_, ?_⟩
  · intro h
    unfold should_suppress_value
    simp [h]
  · intro h hlen
    unfold should_suppress_value MAX_SHORT_STRING_LEN
    rw [if_neg h, if_pos hlen]
  · intro h hlen hck
    unfold should_suppress_value MAX_SHORT_STRING_LEN
    rw [if_neg h, if_neg (by omega), if_pos hck]
  · intro h hlen hkc hphi
    unfold should_suppress_value MAX_SHORT_STRING_LEN
    rw [if_neg h, if_neg (by omega), if_neg (by omega)]
    simp only [hphi]
    rfl
  · intro h hlen hkc hphi
    have hnone : should_suppress_value o v c k cls pat = none := by
      unfold should_suppress_value MAX_SHORT_STRING_LEN
      rw [if_neg h, if_neg (by omega), if_neg (by omega)]
      simp only [hphi]
      rfl
    refine ⟨hnone, ?_⟩
    unfold safe_string_value
    rw [hnone]

/-- Witness for C6: the cascade evaluated at concrete inputs. -/
theorem claim_C6_suppression_cascade_witness :
    (Classification.Safe ≠ Classification.Phi ∧
      "male".utf8ByteSize ≤ 32 ∧ (5 : Nat) ≤ 7 ∧
      (testOracle.check_value_pattern "male").is_phi = false) ∧
    should_suppress_value testOracle "male" 7 5 Classification.Safe none = none ∧
    safe_string_value testOracle "male" 7 5 Classification.Safe none
      = SafeValue.ShortString "male" := by
  refine ⟨⟨by decide, by decide, by decide, by decide⟩, ?_⟩
  exact (claim_C6_suppression_cascade testOracle "male" 7 5 Classification.Safe
    none).2.2.2.2 (by decide) (by decide) (by decide) (by decide)

/-! ## Claim C7: the sealed high-cardinality state -/

/-- Adding a whole list of values (`add` iterated over a stream). -/
def addAll (t : CappedUniqueTracker) (xs : List String) : CappedUniqueTracker :=
  xs.foldl CappedUniqueTracker.add t

theorem addAll_high_cardinality (xs : List String) (t : CappedUniqueTracker)
    (h : t.high_cardinality = true) :
    (addAll t xs).high_cardinality = true := by
  induction xs generalizing t with
  | nil => exact h
  | cons x xs ih =>
      have hstep : t.add x = t := by
        unfold CappedUniqueTracker.add
        simp [h]
      simp only [addAll, List.foldl_cons]
      rw [hstep]
      exact ih t h

/-- **C7.** The `CappedUniqueTracker` seal: once the distinct-value set
would pass the cap the tracker seals with both containers cleared; sealed
trackers ignore `add`, return nothing from `values()`/`value_counts()`,
and never unseal (the flag survives any further stream of `add`s). -/
theorem claim_C7_capped_tracker_seal (t : CappedUniqueTracker) (v : String)
    (xs : List String) :
    (t.high_cardinality = true →
      t.add v = t ∧ t.valuesOpt = none ∧ t.value_countsOpt = none) ∧
    (t.high_cardinality = true → (addAll t xs).high_cardinality = true) ∧
    (t.high_cardinality = false →
      ((t.add v).high_cardinality = true
        ↔ t.max_values < (insertValue t.values v).length)) ∧
    (t.high_cardinality = false → (t.add v).high_cardinality = true →
      (t.add v).values = [] ∧ (t.add v).value_counts = []) := by
  refine ⟨?_, fun h => addAll_high_cardinality xs t h, ?_, ?_⟩
  · intro h
    refine ⟨?_, ?_, ?_⟩
    · unfold CappedUniqueTracker.add
      simp [h]
    · unfold CappedUniqueTracker.valuesOpt
      simp [h]
    · unfold CappedUniqueTracker.value_countsOpt
      simp [h]
  · intro h
    unfold CappedUniqueTracker.add
    simp only [h, Bool.false_eq_true, if_false]
    constructor
    · intro hseal
      by_contra hlen
      rw [if_neg (by omega)] at hseal
      simp [h] at hseal
    · intro hlen
      rw [if_pos (by omega)]
  · intro h hseal
    unfold CappedUniqueTracker.add at hseal ⊢
    simp only [h, Bool.false_eq_true, if_false] at hseal ⊢
    by_cases hlen : (insertValue t.values v).length > t.max_values
    · rw [if_pos hlen]
      exact ⟨rfl, rfl⟩
    · rw [if_neg hlen] at hseal
      simp [h] at hseal

/-- Witness for C7 at a concrete sealed tracker and a concrete sealing
insertion. -/
theorem claim_C7_capped_tracker_seal_witness :
    ((CappedUniqueTracker.new 1).add "a").high_cardinality = false ∧
    ((((CappedUniqueTracker.new 1).add "a").add "b").high_cardinality = true ∧
      (((CappedUniqueTracker.new 1).add "a").add "b").values = [] ∧
      (((CappedUniqueTracker.new 1).add "a").add "b").value_counts = []) := by
  refine ⟨by decide, ?_, ?_⟩
  · by_cases hseal : ((((CappedUniqueTracker.new 1).add "a").add "b").high_cardinality = true)
    · exact hseal
    · exact absurd (by decide) hseal
  · exact (claim_C7_capped_tracker_seal ((CappedUniqueTracker.new 1).add "a") "b"
      []).2.2.2 (by decide) (by decide)

/-! ## Claim C8: type upgrades are monotone on the lattice -/

/-- The type lattice of the specification:
`Boolean ⊏ Integer ⊏ Numeric`, `Date ⊏ Datetime`, `String ⊏ FreeText`,
with `String` the join of any incompatible pair. -/
def dtypeLe (a b : DType) : Bool :=
  a == b
  || (a == DType.Boolean
      && (b == DType.Integer || b == DType.Numeric
          || b == DType.String || b == DType.FreeText))
  || (a == DType.Integer
      && (b == DType.Numeric || b == DType.String || b == DType.FreeText))
  || (a == DType.Numeric && (b == DType.String || b == DType.FreeText))
  || (a == DType.Date
      && (b == DType.Datetime || b == DType.String || b == DType.FreeText))
  || (a == DType.Datetime && (b == DType.String || b == DType.FreeText))
  || (a == DType.String && b == DType.FreeText)

theorem dtypeLe_refl (d : DType) : dtypeLe d d = true := by
  cases d <;> rfl

theorem upgrade_monotone (o : Oracle) (t : TypeInferencer) (v : String) :
    dtypeLe t.inferred_type ((t.upgrade_type_if_needed o v).inferred_type) = true := by
  unfold TypeInferencer.upgrade_type_if_needed TypeInferencer.inferred_type
  dsimp only
  repeat' split
  all_goals simp_all [dtypeLe]

theorem upgrade_absorbing (o : Oracle) (t : TypeInferencer) (v : String) :
    (t.inferred_type = DType.FreeText →
      (t.upgrade_type_if_needed o v).inferred_type = DType.FreeText) ∧
    (t.inferred_type = DType.String →
      (t.upgrade_type_if_needed o v).inferred_type = DType.String
        ∨ (t.upgrade_type_if_needed o v).inferred_type = DType.FreeText) := by
  unfold TypeInferencer.upgrade_type_if_needed TypeInferencer.inferred_type
  dsimp only
  constructor
  · intro h
    repeat' split
    all_goals simp_all
  · intro h
    repeat' split
    all_goals simp_all

set_option maxHeartbeats 1000000 in
/-- **C8.** Across pass-2 observations (after initial inference) the
inferred type never moves down the lattice, `FreeText` is absorbing, and
from `String` the only move is up to `FreeText`. -/
theorem claim_C8_type_monotone (o : Oracle) (t : TypeInferencer) (v : String)
    (hdone : t.initial_inference_done = true) :
    dtypeLe t.inferred_type ((t.observe o v).inferred_type) = true ∧
    (t.inferred_type = DType.FreeText →
      (t.observe o v).inferred_type = DType.FreeText) ∧
    (t.inferred_type = DType.String →
      (t.observe o v).inferred_type = DType.String
        ∨ (t.observe o v).inferred_type = DType.FreeText) := by
  unfold TypeInferencer.observe
  by_cases hm : is_missing v = true
  · rw [if_pos hm]
    exact ⟨dtypeLe_refl _, fun h => h, fun h => Or.inl h⟩
  · rw [if_neg hm]
    dsimp only
    have hnd : ¬((!t.initial_inference_done) = true) := by
      rw [hdone]
      decide
    rw [if_neg hnd]
    exact ⟨upgrade_monotone o { t with values_seen := t.values_seen + 1 } v,
      (upgrade_absorbing o { t with values_seen := t.values_seen + 1 } v).1,
      (upgrade_absorbing o { t with values_seen := t.values_seen + 1 } v).2⟩

/-- Witness for C8: a concrete inferencer frozen at `Integer` observing a
non-integer value. -/
theorem claim_C8_type_monotone_witness :
    ({ TypeInferencer.new with
        current_type := some DType.Integer,
        initial_inference_done := true } : TypeInferencer).initial_inference_done
      = true ∧
    dtypeLe ({ TypeInferencer.new with
        current_type := some DType.Integer,
        initial_inference_done := true } : TypeInferencer).inferred_type
      ((({ TypeInferencer.new with
        current_type := some DType.Integer,
        initial_inference_done := true } : TypeInferencer).observe testOracle
          "abc").inferred_type) = true := by
  refine ⟨rfl, ?_⟩
  exact (claim_C8_type_monotone testOracle _ "abc" rfl).1

/-! ## Claim C9: exact_counts / exact_median -/

/-- The amended C9: the `Scan` command forces `exact_counts` and
`exact_median` to false whenever `relaxed` is false, and the extraction
never reads either flag (nor `hash_file` or `relaxed`): its output depends
only on `k_anonymity` and `bucket_counts`. -/
theorem claim_C9_exact_flags_amended :
    (∀ (k : Nat) (b ec em hf : Bool),
      (scanOptions k b ec em hf false).exact_counts = false ∧
      (scanOptions k b ec em hf false).exact_median = false) ∧
    (∀ (o : Oracle) (shuffle : List String → List String) (fn : String)
      (headers : List String) (rows : List (List String))
      (opts1 opts2 : ProcessingOptions),
      opts1.k_anonymity = opts2.k_anonymity →
      opts1.bucket_counts = opts2.bucket_counts →
      read_with_recoding o shuffle fn headers rows opts1
        = read_with_recoding o shuffle fn headers rows opts2) := by
  constructor
  · intro k b ec em hf
    exact ⟨Bool.and_false ec, Bool.and_false em⟩
  · intro o shuffle fn headers rows opts1 opts2 hk hb
    obtain ⟨k1, b1, e1, m1, h1, r1⟩ := opts1
    obtain ⟨k2, b2, e2, m2, h2, r2⟩ := opts2
    cases hk
    cases hb
    rfl

/-- Witness for C9 (amended): forcing at concrete flags, and flag
independence evaluated on a concrete run. -/
theorem claim_C9_exact_flags_amended_witness :
    (scanOptions 5 true true true true false).exact_counts = false ∧
    ({ ProcessingOptions.default with exact_counts := true } : ProcessingOptions).k_anonymity
        = ProcessingOptions.default.k_anonymity ∧
    ({ ProcessingOptions.default with exact_counts := true } : ProcessingOptions).bucket_counts
        = ProcessingOptions.default.bucket_counts ∧
    read_with_recoding testOracle id "t.csv" ["col"] [["1"]]
        { ProcessingOptions.default with exact_counts := true }
      = read_with_recoding testOracle id "t.csv" ["col"] [["1"]]
        ProcessingOptions.default := by
  refine ⟨(claim_C9_exact_flags_amended.1 5 true true true true).1, rfl, rfl, ?_⟩
  exact claim_C9_exact_flags_amended.2 testOracle id "t.csv" ["col"] [["1"]]
    { ProcessingOptions.default with exact_counts := true }
    ProcessingOptions.default rfl rfl

/-- Counterexample to C9 as stated: with `relaxed = true` and
`exact_counts = true` (and the default `bucket_counts = true`), the
emitted counts are still bucketed short strings, not exact integers: a
three-row integer column yields `count = ShortString "2-5"`. -/
theorem claim_C9_counterexample :
    (scanOptions DEFAULT_K_ANONYMITY true true true true true).relaxed = true ∧
    (scanOptions DEFAULT_K_ANONYMITY true true true true true).exact_counts = true ∧
    ((read_with_recoding testOracle id "t.csv" ["col"] [["1"], ["2"], ["3"]]
        (scanOptions DEFAULT_K_ANONYMITY true true true true true)).1.columns.map
      (fun c => c.stats.map (fun s => s.count)))
      = [some (some (SafeValue.ShortString "2-5"))] ∧
    (∀ n : Int, some (SafeValue.ShortString "2-5") ≠ some (SafeValue.Integer n)) := by
  refine ⟨rfl, rfl, by decide, ?_⟩
  intro n h
  cases h

/-! ## Infrastructure lemmas: association lists, `getD`/`set`, lookups -/

theorem lookup_assocUpdate_self {β : Type} (l : List (Nat × β)) (k : Nat) (b : β)
    (h : (l.lookup k).isSome = true) :
    (assocUpdate l k b).lookup k = some b := by
  induction l with
  | nil => simp [List.lookup] at h
  | cons p rest ih =>
      by_cases hk : p.1 == k
      · simp only [assocUpdate, hk, if_true]
        simp [List.lookup]
      · obtain ⟨p1, p2⟩ := p
        simp only at hk
        simp only [assocUpdate, hk, if_false]
        simp only [List.lookup, hk] at h ⊢
        have hkne : k ≠ p1 := by
          intro he
          exact hk (by simp [he])
        have hkf : (k == p1) = false := beq_eq_false_iff_ne.mpr hkne
        rw [hkf] at h ⊢
        exact ih h

theorem lookup_assocUpdate_ne {β : Type} (l : List (Nat × β)) (k c : Nat) (b : β)
    (h : c ≠ k) :
    (assocUpdate l k b).lookup c = l.lookup c := by
  induction l with
  | nil => rfl
  | cons p rest ih =>
      obtain ⟨p1, p2⟩ := p
      by_cases hk : p1 = k
      · subst hk
        simp only [assocUpdate, beq_self_eq_true, if_true]
        simp only [List.lookup]
        rw [show (c == p1) = false from beq_eq_false_iff_ne.mpr (by omega)]
      · simp only [assocUpdate, show (p1 == k) = false from beq_eq_false_iff_ne.mpr (by omega),
          if_false]
        simp only [List.lookup]
        by_cases hc : c = p1
        · subst hc
          simp
        · rw [show (c == p1) = false from beq_eq_false_iff_ne.mpr (by omega)]
          exact ih

theorem lookup_assocInsert_self {β : Type} (l : List (Nat × β)) (k : Nat) (b : β) :
    (assocInsert l k b).lookup k = some b := by
  unfold assocInsert
  by_cases h : (l.lookup k).isSome = true
  · rw [if_pos h]
    exact lookup_assocUpdate_self l k b h
  · rw [if_neg h]
    induction l with
    | nil => simp [List.lookup]
    | cons p rest ih =>
        obtain ⟨p1, p2⟩ := p
        simp only [List.lookup] at h ⊢
        by_cases hk : k = p1
        · subst hk
          simp at h
        · rw [show (k == p1) = false from beq_eq_false_iff_ne.mpr (by omega)] at h ⊢
          simp only [List.cons_append]
          exact ih h

theorem lookup_assocInsert_ne {β : Type} (l : List (Nat × β)) (k c : Nat) (b : β)
    (h : c ≠ k) :
    (assocInsert l k b).lookup c = l.lookup c := by
  unfold assocInsert
  by_cases hs : (l.lookup k).isSome = true
  · rw [if_pos hs]
    exact lookup_assocUpdate_ne l k c b h
  · rw [if_neg hs]
    induction l with
    | nil =>
        simp only [List.nil_append, List.lookup]
        rw [show (c == k) = false from beq_eq_false_iff_ne.mpr (by omega)]
    | cons p rest ih =>
        obtain ⟨p1, p2⟩ := p
        simp only [List.cons_append, List.lookup] at ih ⊢
        by_cases hc : c = p1
        · subst hc
          simp
        · rw [show (c == p1) = false from beq_eq_false_iff_ne.mpr (by omega)]
          simp only [List.lookup] at hs
          by_cases hkp : k = p1
          · subst hkp
            simp at hs
          · rw [show (k == p1) = false from beq_eq_false_iff_ne.mpr (by omega)] at hs
            exact ih hs

theorem getD_set_self {α : Type} (l : List α) (i : Nat) (a d : α) (h : i < l.length) :
    (l.set i a).getD i d = a := by
  simp [List.getD, List.getElem?_set, h]

theorem getD_set_ne {α : Type} (l : List α) (i j : Nat) (a d : α) (h : i ≠ j) :
    (l.set i a).getD j d = l.getD j d := by
  simp [List.getD, List.getElem?_set, h]

theorem mem_of_lookup_eq_some {l : List (String × String)} {k b : String}
    (h : l.lookup k = some b) : (k, b) ∈ l := by
  induction l with
  | nil => simp [List.lookup] at h
  | cons p rest ih =>
      obtain ⟨p1, p2⟩ := p
      simp only [List.lookup] at h
      by_cases hk : k == p1
      · rw [hk] at h
        simp only [Option.some.injEq] at h
        subst h
        rw [show k = p1 from by simpa using hk]
        exact List.mem_cons_self _ _
      · rw [Bool.not_eq_true] at hk
        rw [hk] at h
        exact List.mem_cons_of_mem _ (ih h)

/-! ## Per-column view of pass 2

`colStep`/`colFold` restate the pass-2 cell treatment for one fixed
column: the tracker together with that column's optional recoder.  The
decomposition lemmas below prove that the row-major pass 2 of the source
acts on each column exactly as this per-column fold. -/

/-- The pass-2 treatment of one cell of one column, as a function of the
column's tracker and its optional recoder (`processCell` projected to one
column; proved equivalent in `processCell_eq_colStep`). -/
def colStep (o : Oracle) (dtype : DType)
    (s : ColumnStatTracker × Option ValueRecoder) (field : String) :
    ColumnStatTracker × Option ValueRecoder :=
  if is_missing field then (s.1.update_missing, s.2)
  else
    let vr : String × Option ValueRecoder :=
      match s.2 with
      | some r => ((r.recode field).1, some (r.recode field).2)
      | none => (field, none)
    match dtype with
    | DType.Integer | DType.Numeric =>
        match o.parse_numeric field with
        | some num => (s.1.update_numeric num vr.1, vr.2)
        | none => (s.1.update_string vr.1, vr.2)
    | _ => (s.1.update_string vr.1, vr.2)

/-- The per-column fold of pass 2 over a stream of cells. -/
def colFold (o : Oracle) (dtype : DType)
    (s : ColumnStatTracker × Option ValueRecoder) (fields : List String) :
    ColumnStatTracker × Option ValueRecoder :=
  fields.foldl (colStep o dtype) s

/-- The cells a fixed column receives from a list of (index, cell)
pairs. -/
def colCellsOfPairs (c : Nat) (cells : List (Nat × String)) : List String :=
  cells.filterMap (fun p => if p.1 = c then some p.2 else none)

/-- The cells a fixed column receives from the row stream. -/
def columnCells (rows : List (List String)) (c : Nat) : List String :=
  rows.filterMap (fun r => r[c]?)

theorem processCell_eq_colStep (o : Oracle) (dtype : DType) (idx : Nat)
    (field : String) (tr : ColumnStatTracker) (reg : RecodeRegistry) :
    (processCell o dtype idx field tr reg).1
        = (colStep o dtype (tr, reg.recoders.lookup idx) field).1 ∧
    (processCell o dtype idx field tr reg).2.recoders.lookup idx
        = (colStep o dtype (tr, reg.recoders.lookup idx) field).2 := by
  unfold processCell colStep RecodeRegistry.is_recoded RecodeRegistry.recode
  by_cases hm : is_missing field = true
  · rw [if_pos hm, if_pos hm]
    exact ⟨rfl, rfl⟩
  · rw [if_neg hm, if_neg hm]
    dsimp only
    rcases hr : reg.recoders.lookup idx with - | r
    · simp only [Option.isSome_none, Bool.false_eq_true, if_false]
      constructor
      · cases dtype <;> dsimp only <;> (try split) <;> rfl
      · cases dtype <;> dsimp only <;> (try split) <;> exact hr
    · have hup : (assocUpdate reg.recoders idx (r.recode field).2).lookup idx
          = some (r.recode field).2 :=
        lookup_assocUpdate_self _ _ _ (by rw [hr]; rfl)
      simp only [Option.isSome_some, if_true, Option.getD_some]
      constructor
      · cases dtype <;> dsimp only <;> (try split) <;> rfl
      · cases dtype <;> dsimp only <;> (try split) <;> exact hup

theorem processCell_lookup_ne (o : Oracle) (dtype : DType) (idx c : Nat)
    (field : String) (tr : ColumnStatTracker) (reg : RecodeRegistry)
    (h : c ≠ idx) :
    (processCell o dtype idx field tr reg).2.recoders.lookup c
      = reg.recoders.lookup c := by
  unfold processCell RecodeRegistry.is_recoded RecodeRegistry.recode
  by_cases hm : is_missing field = true
  · rw [if_pos hm]
  · rw [if_neg hm]
    dsimp only
    rcases hr : reg.recoders.lookup idx with - | r
    · simp only [Option.isSome_none, Bool.false_eq_true, if_false]
      cases dtype <;> dsimp only <;> (try split) <;> rfl
    · have hup : (assocUpdate reg.recoders idx (r.recode field).2).lookup c
          = reg.recoders.lookup c :=
        lookup_assocUpdate_ne _ _ _ _ h
      simp only [Option.isSome_some, if_true, Option.getD_some]
      cases dtype <;> dsimp only <;> (try split) <;> exact hup

/-- Default tracker used to state the decomposition (the pipeline's
initial per-column tracker). -/
def defaultTracker : ColumnStatTracker := ColumnStatTracker.new MAX_UNIQUE_VALUES

theorem pass2Cells_col (o : Oracle) (num_cols : Nat) (dtypes : List DType)
    (c : Nat) (hc : c < num_cols) :
    ∀ (cells : List (Nat × String)) (trackers : List ColumnStatTracker)
      (reg : RecodeRegistry), trackers.length = num_cols →
      (pass2Cells o num_cols dtypes (trackers, reg) cells).1.length = num_cols ∧
      ((pass2Cells o num_cols dtypes (trackers, reg) cells).1.getD c defaultTracker,
        (pass2Cells o num_cols dtypes (trackers, reg) cells).2.recoders.lookup c)
        = colFold o (dtypes.getD c DType.String)
            (trackers.getD c defaultTracker, reg.recoders.lookup c)
            (colCellsOfPairs c cells) := by
  intro cells
  induction cells with
  | nil =>
      intro trackers reg hlen
      exact ⟨hlen, rfl⟩
  | cons p rest ih =>
      intro trackers reg hlen
      obtain ⟨idx, field⟩ := p
      by_cases hp : idx < num_cols
      · have hstep :
            pass2Cells o num_cols dtypes (trackers, reg) ((idx, field) :: rest)
              = pass2Cells o num_cols dtypes
                  (trackers.set idx
                    (processCell o (dtypes.getD idx DType.String) idx field
                      (trackers.getD idx defaultTracker) reg).1,
                   (processCell o (dtypes.getD idx DType.String) idx field
                      (trackers.getD idx defaultTracker) reg).2) rest := by
          unfold pass2Cells
          rw [List.foldl_cons]
          rw [if_pos hp]
          rfl
        rw [hstep]
        have hlen2 : (trackers.set idx
            (processCell o (dtypes.getD idx DType.String) idx field
              (trackers.getD idx defaultTracker) reg).1).length = num_cols := by
          rw [List.length_set]
          exact hlen
        obtain ⟨ihlen, iheq⟩ := ih _ _ hlen2
        refine ⟨ihlen, ?_⟩
        rw [iheq]
        by_cases hidx : idx = c
        · subst hidx
          have hcells : colCellsOfPairs idx ((idx, field) :: rest)
              = field :: colCellsOfPairs idx rest := by
            unfold colCellsOfPairs
            simp
          rw [hcells]
          have hget : (trackers.set idx
              (processCell o (dtypes.getD idx DType.String) idx field
                (trackers.getD idx defaultTracker) reg).1).getD idx defaultTracker
              = (processCell o (dtypes.getD idx DType.String) idx field
                (trackers.getD idx defaultTracker) reg).1 :=
            getD_set_self _ _ _ _ (by omega)
          rw [hget]
          unfold colFold
          rw [List.foldl_cons]
          obtain ⟨h1, h2⟩ := processCell_eq_colStep o (dtypes.getD idx DType.String)
            idx field (trackers.getD idx defaultTracker) reg
          rw [h1, h2]
        · have hcells : colCellsOfPairs c ((idx, field) :: rest)
              = colCellsOfPairs c rest := by
            unfold colCellsOfPairs
            simp [hidx]
          rw [hcells]
          have hget : (trackers.set idx
              (processCell o (dtypes.getD idx DType.String) idx field
                (trackers.getD idx defaultTracker) reg).1).getD c defaultTracker
              = trackers.getD c defaultTracker :=
            getD_set_ne _ _ _ _ _ hidx
          rw [hget]
          rw [processCell_lookup_ne o _ idx c field _ reg (fun h => hidx h.symm)]
      · have hstep :
            pass2Cells o num_cols dtypes (trackers, reg) ((idx, field) :: rest)
              = pass2Cells o num_cols dtypes (trackers, reg) rest := by
          unfold pass2Cells
          rw [List.foldl_cons]
          rw [if_neg hp]
        rw [hstep]
        obtain ⟨ihlen, iheq⟩ := ih trackers reg hlen
        refine ⟨ihlen, ?_⟩
        rw [iheq]
        have hcells : colCellsOfPairs c ((idx, field) :: rest)
            = colCellsOfPairs c rest := by
          unfold colCellsOfPairs
          simp [show idx ≠ c by omega]
        rw [hcells]

theorem colCellsOfPairs_enumFrom (c : Nat) :
    ∀ (row : List String) (k : Nat),
      colCellsOfPairs c (List.enumFrom k row)
        = if k ≤ c then (row[c - k]?).toList else [] := by
  intro row
  induction row with
  | nil =>
      intro k
      simp only [List.enumFrom]
      unfold colCellsOfPairs
      simp
  | cons a as ih =>
      intro k
      rw [List.enumFrom_cons]
      by_cases hk : k = c
      · subst hk
        have h1 : colCellsOfPairs k ((k, a) :: List.enumFrom (k + 1) as)
            = a :: colCellsOfPairs k (List.enumFrom (k + 1) as) := by
          unfold colCellsOfPairs
          simp
        rw [h1, ih (k + 1)]
        rw [if_neg (by omega), if_pos (by omega)]
        simp
      · have h1 : colCellsOfPairs c ((k, a) :: List.enumFrom (k + 1) as)
            = colCellsOfPairs c (List.enumFrom (k + 1) as) := by
          unfold colCellsOfPairs
          simp [hk]
        rw [h1, ih (k + 1)]
        by_cases hle : k ≤ c
        · rw [if_pos (by omega), if_pos hle]
          have : c - k = (c - (k + 1)) + 1 := by omega
          rw [this]
          simp
        · rw [if_neg (by omega), if_neg hle]

theorem pass2Row_col (o : Oracle) (num_cols : Nat) (dtypes : List DType)
    (c : Nat) (hc : c < num_cols) (row : List String)
    (trackers : List ColumnStatTracker) (reg : RecodeRegistry)
    (hlen : trackers.length = num_cols) :
    (pass2Row o num_cols dtypes (trackers, reg) row).1.length = num_cols ∧
    ((pass2Row o num_cols dtypes (trackers, reg) row).1.getD c defaultTracker,
      (pass2Row o num_cols dtypes (trackers, reg) row).2.recoders.lookup c)
      = colFold o (dtypes.getD c DType.String)
          (trackers.getD c defaultTracker, reg.recoders.lookup c)
          ((row[c]?).toList) := by
  have h := pass2Cells_col o num_cols dtypes c hc row.enum trackers reg hlen
  have henum : colCellsOfPairs c row.enum = (row[c]?).toList := by
    have := colCellsOfPairs_enumFrom c row 0
    simpa [List.enum] using this
  unfold pass2Row
  rw [← henum]
  exact h

theorem pass2_col (o : Oracle) (num_cols : Nat) (dtypes : List DType)
    (c : Nat) (hc : c < num_cols) :
    ∀ (rows : List (List String)) (trackers : List ColumnStatTracker)
      (reg : RecodeRegistry), trackers.length = num_cols →
      (pass2 o num_cols dtypes (trackers, reg) rows).1.length = num_cols ∧
      ((pass2 o num_cols dtypes (trackers, reg) rows).1.getD c defaultTracker,
        (pass2 o num_cols dtypes (trackers, reg) rows).2.recoders.lookup c)
        = colFold o (dtypes.getD c DType.String)
            (trackers.getD c defaultTracker, reg.recoders.lookup c)
            (columnCells rows c) := by
  intro rows
  induction rows with
  | nil =>
      intro trackers reg hlen
      exact ⟨hlen, rfl⟩
  | cons row rest ih =>
      intro trackers reg hlen
      have hrow := pass2Row_col o num_cols dtypes c hc row trackers reg hlen
      have hstep : pass2 o num_cols dtypes (trackers, reg) (row :: rest)
          = pass2 o num_cols dtypes
              ((pass2Row o num_cols dtypes (trackers, reg) row).1,
               (pass2Row o num_cols dtypes (trackers, reg) row).2) rest := by
        unfold pass2
        rw [List.foldl_cons]
      rw [hstep]
      obtain ⟨ihlen, iheq⟩ := ih _ _ hrow.1
      refine ⟨ihlen, ?_⟩
      rw [iheq]
      have hcol : columnCells (row :: rest) c
          = (row[c]?).toList ++ columnCells rest c := by
        unfold columnCells
        rcases h : row[c]? with - | v <;> simp [List.filterMap_cons, h]
      rw [hcol]
      unfold colFold
      rw [List.foldl_append]
      have := hrow.2
      unfold colFold at this
      rw [← this]

/-! ## Stream-level facts about the per-column fold -/

/-- The numeric observation a cell contributes to the Welford/P² estimators
(`none` when the cell is skipped by the numeric path). -/
def numericObs (o : Oracle) (dtype : DType) (field : String) : Option ℚ :=
  if is_missing field then none
  else
    match dtype with
    | DType.Integer | DType.Numeric => o.parse_numeric field
    | _ => none

theorem colStep_missing_count (o : Oracle) (dtype : DType)
    (s : ColumnStatTracker × Option ValueRecoder) (field : String) :
    (colStep o dtype s field).1.missing_count
      = s.1.missing_count + (if is_missing field then 1 else 0) := by
  unfold colStep
  by_cases hm : is_missing field = true
  · rw [if_pos hm, if_pos hm]
    rfl
  · rw [if_neg hm, if_neg hm]
    dsimp only
    cases dtype <;> dsimp only <;> (try split) <;> rfl

theorem colStep_welford (o : Oracle) (dtype : DType)
    (s : ColumnStatTracker × Option ValueRecoder) (field : String) :
    (colStep o dtype s field).1.welford
      = match numericObs o dtype field with
        | some num => s.1.welford.update num
        | none => s.1.welford := by
  unfold colStep numericObs
  by_cases hm : is_missing field = true
  · rw [if_pos hm, if_pos hm]
    rfl
  · rw [if_neg hm, if_neg hm]
    dsimp only
    cases dtype <;> dsimp only <;> (try split) <;> rfl

theorem colFold_welford (o : Oracle) (dtype : DType) :
    ∀ (fields : List String) (s : ColumnStatTracker × Option ValueRecoder),
      (colFold o dtype s fields).1.welford
        = (fields.filterMap (numericObs o dtype)).foldl WelfordStats.update
            s.1.welford := by
  intro fields
  induction fields with
  | nil => intro s; rfl
  | cons f fs ih =>
      intro s
      unfold colFold
      rw [List.foldl_cons]
      have := ih (colStep o dtype s f)
      unfold colFold at this
      rw [this]
      rw [List.filterMap_cons]
      have hw := colStep_welford o dtype s f
      rcases hobs : numericObs o dtype f with - | num
      · rw [hobs] at hw
        rw [hw]
      · rw [hobs] at hw
        rw [List.foldl_cons, hw]

theorem colFold_missing (o : Oracle) (dtype : DType) :
    ∀ (fields : List String) (s : ColumnStatTracker × Option ValueRecoder),
      (colFold o dtype s fields).1.missing_count
        = s.1.missing_count + (fields.filter (fun f => is_missing f)).length := by
  intro fields
  induction fields with
  | nil => intro s; simp [colFold]
  | cons f fs ih =>
      intro s
      unfold colFold
      rw [List.foldl_cons]
      have := ih (colStep o dtype s f)
      unfold colFold at this
      rw [this, colStep_missing_count]
      rw [List.filter_cons]
      by_cases hm : is_missing f = true
      · simp only [hm, if_true, List.length_cons]
        omega
      · simp only [hm]
        simp only [Bool.false_eq_true, if_false, if_neg hm]
        omega

theorem welford_foldl_count (qs : List ℚ) :
    ∀ (w : WelfordStats),
      (qs.foldl WelfordStats.update w).count = w.count + qs.length := by
  induction qs with
  | nil => intro w; simp
  | cons q qs ih =>
      intro w
      rw [List.foldl_cons, ih]
      have : (w.update q).count = w.count + 1 := rfl
      rw [this]
      simp only [List.length_cons]
      omega

theorem colStep_unique_none (o : Oracle) (dtype : DType)
    (tr : ColumnStatTracker) (field : String) :
    (colStep o dtype (tr, none) field).2 = none ∧
    (colStep o dtype (tr, none) field).1.unique_tracker
      = if is_missing field then tr.unique_tracker
        else tr.unique_tracker.add field := by
  unfold colStep
  by_cases hm : is_missing field = true
  · rw [if_pos hm, if_pos hm]
    exact ⟨rfl, rfl⟩
  · rw [if_neg hm, if_neg hm]
    dsimp only
    constructor
    · cases dtype <;> dsimp only <;> (try split) <;> rfl
    · cases dtype <;> dsimp only <;> (try split) <;> rfl

theorem colFold_unique_none (o : Oracle) (dtype : DType) :
    ∀ (fields : List String) (tr : ColumnStatTracker),
      (colFold o dtype (tr, none) fields).2 = none ∧
      (colFold o dtype (tr, none) fields).1.unique_tracker
        = addAll tr.unique_tracker
            (fields.filter (fun f => !is_missing f)) := by
  intro fields
  induction fields with
  | nil => intro tr; exact ⟨rfl, rfl⟩
  | cons f fs ih =>
      intro tr
      obtain ⟨hstepN, hstepU⟩ := colStep_unique_none o dtype tr f
      have hpair : colStep o dtype (tr, none) f
          = ((colStep o dtype (tr, none) f).1, none) :=
        Prod.ext rfl hstepN
      unfold colFold
      rw [List.foldl_cons, hpair]
      obtain ⟨ihN, ihU⟩ := ih ((colStep o dtype (tr, none) f).1)
      unfold colFold at ihN ihU
      refine ⟨ihN, ?_⟩
      rw [ihU, hstepU]
      rw [List.filter_cons]
      by_cases hm : is_missing f = true
      · rw [if_pos hm, if_neg (by rw [hm]; decide)]
      · rw [if_neg hm, if_pos ?hpos]
        case hpos =>
          rw [Bool.not_eq_true] at hm
          rw [hm]
          decide
        unfold addAll
        rw [List.foldl_cons]

/-! ## Characterisation of the unique tracker over a stream of adds -/

/-- Distinct values of a stream in first-appearance order. -/
def dedupFirst (xs : List String) : List String := xs.foldl insertValue []

theorem mem_insertValue (l : List String) (w v : String) :
    v ∈ insertValue l w ↔ v ∈ l ∨ v = w := by
  unfold insertValue
  by_cases h : l.contains w
  · rw [if_pos h]
    constructor
    · exact Or.inl
    · rintro (hv | hv)
      · exact hv
      · subst hv
        exact List.mem_of_elem_eq_true h
  · rw [if_neg h]
    simp

theorem mem_foldl_insertValue (xs : List String) :
    ∀ (acc : List String) (v : String),
      v ∈ xs.foldl insertValue acc ↔ v ∈ acc ∨ v ∈ xs := by
  induction xs with
  | nil => intro acc v; simp
  | cons x xs ih =>
      intro acc v
      rw [List.foldl_cons, ih, mem_insertValue]
      constructor
      · rintro ((h | h) | h)
        · exact Or.inl h
        · exact Or.inr (by rw [h]; exact List.mem_cons_self _ _)
        · exact Or.inr (List.mem_cons_of_mem _ h)
      · rintro (h | h)
        · exact Or.inl (Or.inl h)
        · rcases List.mem_cons.mp h with h | h
          · exact Or.inl (Or.inr h)
          · exact Or.inr h

theorem lookup_bumpCount (l : List (String × Nat)) (x w : String) :
    (bumpCount l x).lookup w
      = if w = x then some ((l.lookup w).getD 0 + 1) else l.lookup w := by
  induction l with
  | nil =>
      by_cases hw : w = x
      · subst hw
        simp [bumpCount, List.lookup]
      · simp only [bumpCount, List.lookup,
          show (w == x) = false from beq_eq_false_iff_ne.mpr hw, if_neg hw]
  | cons p rest ih =>
      obtain ⟨k, c⟩ := p
      by_cases hk : k = x
      · subst hk
        simp only [bumpCount, beq_self_eq_true, if_true]
        by_cases hw : w = k
        · subst hw
          simp [List.lookup]
        · simp only [List.lookup,
            show (w == k) = false from beq_eq_false_iff_ne.mpr hw, if_neg hw]
      · simp only [bumpCount, show (k == x) = false from beq_eq_false_iff_ne.mpr hk]
        simp only [Bool.false_eq_true, if_false]
        by_cases hw : w = k
        · subst hw
          rw [if_neg hk]
          simp [List.lookup]
        · simp only [List.lookup,
            show (w == k) = false from beq_eq_false_iff_ne.mpr hw]
          exact ih

/-- Invariant tying a tracker's containers to the stream it has absorbed:
unless the tracker has sealed, its value set is the stream's distinct
values in first-appearance order and its count map is the stream's exact
multiplicity function. -/
def TrackerInv (seen : List String) (t : CappedUniqueTracker) : Prop :=
  t.high_cardinality = false →
    (t.values = dedupFirst seen ∧
      ∀ v, t.value_counts.lookup v
        = if v ∈ seen then some (seen.count v) else none)

theorem add_trackerInv (seen : List String) (t : CappedUniqueTracker)
    (x : String) (h : TrackerInv seen t) :
    TrackerInv (seen ++ [x]) (t.add x) := by
  intro hc2
  by_cases hc : t.high_cardinality = true
  · exfalso
    have : t.add x = t := by
      unfold CappedUniqueTracker.add
      rw [if_pos hc]
    rw [this] at hc2
    rw [hc] at hc2
    cases hc2
  · rw [Bool.not_eq_true] at hc
    obtain ⟨hvals, hcounts⟩ := h hc
    unfold CappedUniqueTracker.add at hc2 ⊢
    rw [if_neg (by rw [hc]; exact Bool.false_ne_true)] at hc2 ⊢
    dsimp only at hc2 ⊢
    by_cases hlen : (insertValue t.values x).length > t.max_values
    · rw [if_pos hlen] at hc2
      cases hc2
    · rw [if_neg hlen]
      dsimp only
      constructor
      · rw [hvals]
        unfold dedupFirst
        rw [List.foldl_append]
        rfl
      · intro v
        rw [lookup_bumpCount]
        by_cases hv : v = x
        · subst hv
          rw [if_pos rfl, hcounts v]
          have hmm : v ∈ seen ++ [v] := by simp
          rw [if_pos hmm]
          have hcnt : (seen ++ [v]).count v = seen.count v + 1 := by
            rw [List.count_append]
            simp
          rw [hcnt]
          by_cases hmem : v ∈ seen
          · rw [if_pos hmem]
            rfl
          · rw [if_neg hmem]
            have hz : seen.count v = 0 := by
              rw [List.count_eq_zero]
              exact hmem
            rw [hz]
            rfl
        · rw [if_neg hv, hcounts v]
          have hmm : v ∈ seen ++ [x] ↔ v ∈ seen := by
            simp [hv]
          have hcnt : (seen ++ [x]).count v = seen.count v := by
            rw [List.count_append]
            have hz : List.count v [x] = 0 := List.count_eq_zero.mpr (by simp [hv])
            omega
          by_cases hmem : v ∈ seen
          · rw [if_pos hmem, if_pos (hmm.mpr hmem), hcnt]
          · rw [if_neg hmem, if_neg (fun hx => hmem (hmm.mp hx))]

theorem addAll_trackerInv :
    ∀ (xs seen : List String) (t : CappedUniqueTracker),
      TrackerInv seen t → TrackerInv (seen ++ xs) (addAll t xs) := by
  intro xs
  induction xs with
  | nil =>
      intro seen t h
      simpa using h
  | cons x xs ih =>
      intro seen t h
      have h1 := add_trackerInv seen t x h
      have h2 := ih (seen ++ [x]) (t.add x) h1
      unfold addAll at h2 ⊢
      rw [List.foldl_cons]
      simpa [List.append_assoc] using h2

theorem trackerInv_of_stream (xs : List String) :
    TrackerInv xs (addAll (CappedUniqueTracker.new MAX_UNIQUE_VALUES) xs) := by
  have h0 : TrackerInv [] (CappedUniqueTracker.new MAX_UNIQUE_VALUES) := by
    intro hfalse
    refine ⟨rfl, fun v => ?_⟩
    simp [CappedUniqueTracker.new, List.lookup]
  simpa using addAll_trackerInv xs [] _ h0

/-! ## Recoder label lemmas -/

/-- The labels a recoder has handed out. -/
def labelsOf (r : ValueRecoder) : List String := r.mappings.map Prod.snd

theorem recode_fst_mem_labels (r : ValueRecoder) (x : String) :
    (r.recode x).1 ∈ labelsOf (r.recode x).2 := by
  unfold ValueRecoder.recode
  rcases h : r.mappings.lookup x with - | lbl
  · dsimp only [ValueRecoder.generate_label]
    unfold labelsOf
    simp
  · dsimp only
    unfold labelsOf
    exact List.mem_map_of_mem Prod.snd (mem_of_lookup_eq_some h)

theorem recode_labels_mono (r : ValueRecoder) (x v : String)
    (h : v ∈ labelsOf r) : v ∈ labelsOf (r.recode x).2 := by
  unfold ValueRecoder.recode
  rcases hl : r.mappings.lookup x with - | lbl
  · dsimp only [ValueRecoder.generate_label]
    unfold labelsOf at h ⊢
    simp only [List.map_append]
    exact List.mem_append_left _ h
  · exact h

theorem mem_add_values (t : CappedUniqueTracker) (x v : String)
    (h : v ∈ (t.add x).values) : v ∈ t.values ∨ v = x := by
  unfold CappedUniqueTracker.add at h
  by_cases hc : t.high_cardinality = true
  · rw [if_pos hc] at h
    exact Or.inl h
  · rw [if_neg hc] at h
    dsimp only at h
    by_cases hlen : (insertValue t.values x).length > t.max_values
    · rw [if_pos hlen] at h
      cases h
    · rw [if_neg hlen] at h
      dsimp only at h
      exact (mem_insertValue _ _ _).mp h

theorem colStep_some_snd (o : Oracle) (dtype : DType) (tr : ColumnStatTracker)
    (r : ValueRecoder) (f : String) :
    (colStep o dtype (tr, some r) f).2
      = some (if is_missing f then r else (r.recode f).2) := by
  unfold colStep
  by_cases hm : is_missing f = true
  · rw [if_pos hm, if_pos hm]
  · rw [if_neg hm, if_neg hm]
    dsimp only
    cases dtype <;> dsimp only <;> (try split) <;> rfl

theorem colStep_some_unique (o : Oracle) (dtype : DType) (tr : ColumnStatTracker)
    (r : ValueRecoder) (f : String) :
    (colStep o dtype (tr, some r) f).1.unique_tracker
      = if is_missing f then tr.unique_tracker
        else tr.unique_tracker.add ((r.recode f).1) := by
  unfold colStep
  by_cases hm : is_missing f = true
  · rw [if_pos hm, if_pos hm]
    rfl
  · rw [if_neg hm, if_neg hm]
    dsimp only
    cases dtype <;> dsimp only <;> (try split) <;> rfl

/-- Data-flow invariant of a recoded column's pass-2 stream: every value
held by the unique tracker is one of the labels the column's recoder has
handed out (the tracker never holds a value that was not substituted). -/
theorem colFold_recode_labels (o : Oracle) (dtype : DType) :
    ∀ (fields : List String) (tr : ColumnStatTracker) (r : ValueRecoder),
      (∀ v ∈ tr.unique_tracker.values, v ∈ labelsOf r) →
      ∃ r2, (colFold o dtype (tr, some r) fields).2 = some r2 ∧
        (∀ v ∈ (colFold o dtype (tr, some r) fields).1.unique_tracker.values,
          v ∈ labelsOf r2) := by
  intro fields
  induction fields with
  | nil =>
      intro tr r h
      exact ⟨r, rfl, h⟩
  | cons f fs ih =>
      intro tr r h
      have hsnd := colStep_some_snd o dtype tr r f
      have huni := colStep_some_unique o dtype tr r f
      have hpair : colStep o dtype (tr, some r) f
          = ((colStep o dtype (tr, some r) f).1,
             some (if is_missing f then r else (r.recode f).2)) :=
        Prod.ext rfl hsnd
      have hinv : ∀ v ∈ (colStep o dtype (tr, some r) f).1.unique_tracker.values,
          v ∈ labelsOf (if is_missing f then r else (r.recode f).2) := by
        intro v hv
        rw [huni] at hv
        by_cases hm : is_missing f = true
        · rw [if_pos hm] at hv ⊢
          exact h v hv
        · rw [if_neg hm] at hv ⊢
          rcases mem_add_values _ _ _ hv with hv2 | hv2
          · exact recode_labels_mono r f v (h v hv2)
          · rw [hv2]
            exact recode_fst_mem_labels r f
      have := ih ((colStep o dtype (tr, some r) f).1)
        (if is_missing f then r else (r.recode f).2) hinv
      unfold colFold at this ⊢
      rw [List.foldl_cons, hpair]
      exact this

/-! ## Registration of recode columns -/

/-- Whether the column-name check at an index classified the column as
Recode. -/
def isRecodeAt (checks : List ColumnNameResult) (i : Nat) : Bool :=
  match checks[i]? with
  | some ch => ch.classification == Classification.Recode
  | none => false

theorem regLoop_lookup (headers : List String) :
    ∀ (checks : List ColumnNameResult) (k : Nat) (reg : RecodeRegistry) (c : Nat),
      ((List.enumFrom k checks).foldl
        (fun reg p =>
          if p.2.classification = Classification.Recode then
            reg.register_column p.1 (headers.getD p.1 "")
              ( determine_recode_prefix (headers.getD p.1 ""))
          else reg) reg).recoders.lookup c
      = if k ≤ c ∧ isRecodeAt checks (c - k) = true then
          some (ValueRecoder.new ( determine_recode_prefix (headers.getD c "")))
        else reg.recoders.lookup c := by
  intro checks
  induction checks with
  | nil =>
      intro k reg c
      rw [if_neg ?hneg]
      case hneg =>
        rintro ⟨-, habs⟩
        simp [isRecodeAt] at habs
      rfl
  | cons ch rest ih =>
      intro k reg c
      rw [List.enumFrom_cons, List.foldl_cons]
      rw [ih (k + 1)]
      by_cases hck : c = k
      · subst hck
        rw [if_neg (by omega)]
        dsimp only
        by_cases hrec : ch.classification = Classification.Recode
        · rw [if_pos hrec]
          unfold RecodeRegistry.register_column
          dsimp only
          rw [lookup_assocInsert_self]
          rw [if_pos ?hpos]
          case hpos =>
            refine ⟨le_refl c, ?_⟩
            simp [isRecodeAt, hrec]
        · rw [if_neg hrec]
          rw [if_neg ?hneg2]
          case hneg2 =>
            rintro ⟨-, habs⟩
            simp only [isRecodeAt, Nat.sub_self] at habs
            simp only [List.getElem?_cons_zero] at habs
            rw [beq_iff_eq] at habs
            exact hrec habs
      · have hmatch : (k + 1 ≤ c ∧ isRecodeAt rest (c - (k + 1)) = true)
            ↔ (k ≤ c ∧ isRecodeAt (ch :: rest) (c - k) = true) := by
          constructor
          · rintro ⟨hle, hr⟩
            refine ⟨by omega, ?_⟩
            have : c - k = (c - (k + 1)) + 1 := by omega
            rw [this]
            simpa [isRecodeAt] using hr
          · rintro ⟨hle, hr⟩
            have hlt : k < c := by omega
            refine ⟨by omega, ?_⟩
            have : c - k = (c - (k + 1)) + 1 := by omega
            rw [this] at hr
            simpa [isRecodeAt] using hr
        by_cases hcond : k + 1 ≤ c ∧ isRecodeAt rest (c - (k + 1)) = true
        · rw [if_pos hcond, if_pos (hmatch.mp hcond)]
        · rw [if_neg hcond, if_neg (fun hx => hcond (hmatch.mpr hx))]
          by_cases hrec : ch.classification = Classification.Recode
          · rw [if_pos hrec]
            unfold RecodeRegistry.register_column
            dsimp only
            rw [lookup_assocInsert_ne _ _ _ _ hck]
          · rw [if_neg hrec]

theorem registerRecodeColumns_lookup (headers : List String)
    (checks : List ColumnNameResult) (c : Nat) :
    (registerRecodeColumns headers checks).recoders.lookup c
      = if isRecodeAt checks c = true then
          some (ValueRecoder.new ( determine_recode_prefix (headers.getD c "")))
        else none := by
  unfold registerRecodeColumns
  have h := regLoop_lookup headers checks 0 RecodeRegistry.new c
  rw [show checks.enum = List.enumFrom 0 checks from rfl] at *
  rw [h]
  by_cases hrec : isRecodeAt checks c = true
  · rw [if_pos (by simpa using hrec), if_pos hrec]
  · rw [if_neg (by simpa using hrec), if_neg hrec]
    rfl

/-! ## Facts about the column-assembly step -/

/-- The predicate deciding whether a unique value survives into
`unique_values` of a Safe/Warning column. -/
def uvKeep (o : Oracle) (k : Nat) (counts : Option (List (String × Nat)))
    (v : String) : Bool :=
  decide (k ≤ (counts.bind (fun c => c.lookup v)).getD 1)
    && (!(o.check_value_pattern v).is_phi && decide (v.utf8ByteSize ≤ 32))

theorem buildUniqueValuesLoop_gen (o : Oracle) (k : Nat)
    (counts : Option (List (String × Nat))) :
    ∀ (values : List String) (acc : List SafeValue),
      values.foldl
        (fun acc value =>
          let count := (counts.bind (fun c => c.lookup value)).getD 1
          if k ≤ count then
            if !(o.check_value_pattern value).is_phi && value.utf8ByteSize ≤ 32 then
              acc ++ [SafeValue.ShortString value]
            else acc
          else acc)
        acc
      = acc ++ (values.filter (uvKeep o k counts)).map SafeValue.ShortString := by
  intro values
  induction values with
  | nil => intro acc; simp
  | cons v vs ih =>
      intro acc
      rw [List.foldl_cons, List.filter_cons]
      by_cases h1 : k ≤ (counts.bind (fun c => c.lookup v)).getD 1
      · by_cases h2 :
            (!(o.check_value_pattern v).is_phi && decide (v.utf8ByteSize ≤ 32)) = true
        · have hk : uvKeep o k counts v = true := by
            unfold uvKeep
            rw [decide_eq_true h1, h2]
            rfl
          rw [hk]
          dsimp only
          rw [if_pos h1, if_pos h2, ih]
          simp
        · have hk : uvKeep o k counts v = false := by
            unfold uvKeep
            rw [Bool.not_eq_true] at h2
            rw [h2]
            simp
          rw [hk]
          dsimp only
          rw [if_pos h1, if_neg (by rw [Bool.not_eq_true] at h2 ⊢; exact h2), ih]
          simp
      · have hk : uvKeep o k counts v = false := by
          unfold uvKeep
          rw [decide_eq_false h1]
          rfl
        rw [hk]
        dsimp only
        rw [if_neg h1, ih]
        simp

theorem buildUniqueValuesLoop_eq (o : Oracle) (k : Nat)
    (counts : Option (List (String × Nat))) (values : List String) :
    buildUniqueValuesLoop o k counts values
      = (values.filter (uvKeep o k counts)).map SafeValue.ShortString := by
  unfold buildUniqueValuesLoop
  have h := buildUniqueValuesLoop_gen o k counts values []
  rw [h]
  simp

theorem mem_buildUniqueValuesLoop (o : Oracle) (k : Nat)
    (counts : Option (List (String × Nat))) (values : List String)
    (sv : SafeValue) (h : sv ∈ buildUniqueValuesLoop o k counts values) :
    ∃ v, sv = SafeValue.ShortString v ∧ v ∈ values ∧
      k ≤ (counts.bind (fun c => c.lookup v)).getD 1 ∧
      (o.check_value_pattern v).is_phi = false ∧ v.utf8ByteSize ≤ 32 := by
  rw [buildUniqueValuesLoop_eq] at h
  rcases List.mem_map.mp h with ⟨v, hv, heq⟩
  rcases List.mem_filter.mp hv with ⟨hmem, hkeep⟩
  unfold uvKeep at hkeep
  rw [Bool.and_eq_true, Bool.and_eq_true] at hkeep
  obtain ⟨hk1, hk2, hk3⟩ := hkeep
  refine ⟨v, heq.symm, hmem, of_decide_eq_true hk1, ?_, of_decide_eq_true hk3⟩
  rw [Bool.not_eq_true'] at hk2
  exact hk2

theorem buildColumn_phi (o : Oracle) (shuffle : List String → List String)
    (options : ProcessingOptions) (reg : RecodeRegistry)
    (check : ColumnNameResult) (dtype : DType) (tracker : ColumnStatTracker)
    (col_idx : Nat) (header : String)
    (h : (buildColumn o shuffle options reg check dtype tracker col_idx
        header).classification = Classification.Phi) :
    (buildColumn o shuffle options reg check dtype tracker col_idx header).name
        = SafeValue.Suppressed "Column name matches PHI pattern" ∧
    (buildColumn o shuffle options reg check dtype tracker col_idx
        header).unique_values = none := by
  unfold buildColumn at h ⊢
  dsimp only at h ⊢
  rw [h]
  refine ⟨by rw [if_pos rfl], ?_⟩
  rw [if_neg (by intro hx; cases hx)]
  rw [if_neg ?hneg]
  case hneg =>
    rintro (hx | hx) <;> cases hx

theorem buildColumn_safe_warning (o : Oracle) (shuffle : List String → List String)
    (options : ProcessingOptions) (reg : RecodeRegistry)
    (check : ColumnNameResult) (dtype : DType) (tracker : ColumnStatTracker)
    (col_idx : Nat) (header : String)
    (h : (buildColumn o shuffle options reg check dtype tracker col_idx
          header).classification = Classification.Safe
        ∨ (buildColumn o shuffle options reg check dtype tracker col_idx
          header).classification = Classification.Warning) :
    (check.classification = Classification.Safe
      ∨ check.classification = Classification.Warning) ∧
    tracker.unique_tracker.high_cardinality = false ∧
    ∀ uvs, (buildColumn o shuffle options reg check dtype tracker col_idx
        header).unique_values = some uvs →
      uvs = buildUniqueValuesLoop o options.k_anonymity
        (some tracker.unique_tracker.value_counts)
        (shuffle tracker.unique_tracker.values) := by
  unfold buildColumn at h ⊢
  dsimp only at h ⊢
  by_cases hcond : tracker.unique_tracker.is_high_cardinality = true
      ∧ check.classification ≠ Classification.Recode
      ∧ check.classification ≠ Classification.Phi
  · rw [if_pos hcond] at h
    rcases h with h | h <;> cases h
  · rw [if_neg hcond] at h ⊢
    have hcls : check.classification = Classification.Safe
        ∨ check.classification = Classification.Warning := h
    have hhc : tracker.unique_tracker.high_cardinality = false := by
      by_cases hb : tracker.unique_tracker.high_cardinality = true
      · exfalso
        apply hcond
        refine ⟨hb, ?_, ?_⟩ <;> rintro hx <;>
          rcases hcls with h2 | h2 <;> rw [hx] at h2 <;> cases h2
      · rw [Bool.not_eq_true] at hb
        exact hb
    refine ⟨hcls, hhc, ?_⟩
    intro uvs huvs
    rw [if_neg ?hnr] at huvs
    case hnr =>
      intro hx
      rcases hcls with h2 | h2 <;> rw [hx] at h2 <;> cases h2
    rw [if_pos hcls] at huvs
    have hvalsOpt : tracker.unique_tracker.valuesOpt
        = some tracker.unique_tracker.values := by
      unfold CappedUniqueTracker.valuesOpt
      rw [hhc]
      rfl
    have hcountsOpt : tracker.unique_tracker.value_countsOpt
        = some tracker.unique_tracker.value_counts := by
      unfold CappedUniqueTracker.value_countsOpt
      rw [hhc]
      rfl
    rw [hvalsOpt, hcountsOpt] at huvs
    dsimp only at huvs
    by_cases hemp : (buildUniqueValuesLoop o options.k_anonymity
        (some tracker.unique_tracker.value_counts)
        (shuffle tracker.unique_tracker.values)).isEmpty = true
    · rw [if_pos hemp] at huvs
      cases huvs
    · rw [if_neg hemp] at huvs
      exact (Option.some.injEq _ _).mp huvs.symm

theorem buildColumn_counts (o : Oracle) (shuffle : List String → List String)
    (options : ProcessingOptions) (reg : RecodeRegistry)
    (check : ColumnNameResult) (dtype : DType) (tracker : ColumnStatTracker)
    (col_idx : Nat) (header : String) :
    ∃ s, (buildColumn o shuffle options reg check dtype tracker col_idx
        header).stats = some s ∧
      s.count = some (safe_count tracker.welford.count options.bucket_counts) ∧
      s.missing_count
        = some (safe_count tracker.missing_count options.bucket_counts) := by
  unfold buildColumn
  dsimp only
  refine ⟨_, rfl, ?_, ?_⟩ <;>
    (repeat' split) <;> rfl

/-! ## Named pipeline internals and the shape of `read_with_recoding` -/

/-- The frozen per-column types after pass 1 and finalisation. -/
def pipeDtypes (o : Oracle) (headers : List String)
    (rows : List (List String)) : List DType :=
  ((pass1 o headers.length (List.replicate headers.length TypeInferencer.new)
      rows).map (fun inf => inf.finalize_initial_inference o)).map
    (fun inf => inf.inferred_type)

/-- The trackers and registry after pass 2. -/
def pipeState (o : Oracle) (headers : List String)
    (rows : List (List String)) : List ColumnStatTracker × RecodeRegistry :=
  pass2 o headers.length (pipeDtypes o headers rows)
    (List.replicate headers.length (ColumnStatTracker.new MAX_UNIQUE_VALUES),
     registerRecodeColumns headers (headers.map o.check_column_name)) rows

theorem read_with_recoding_eq (o : Oracle) (shuffle : List String → List String)
    (fn : String) (headers : List String) (rows : List (List String))
    (opts : ProcessingOptions) :
    read_with_recoding o shuffle fn headers rows opts
      = ({ name := fn, index := 0,
           row_count := safe_count rows.length opts.bucket_counts,
           columns := headers.enum.map (fun p =>
             buildColumn o shuffle opts (pipeState o headers rows).2
               ((headers.map o.check_column_name).getD p.1 ColumnNameResult.safe)
               ((pipeDtypes o headers rows).getD p.1 DType.String)
               ((pipeState o headers rows).1.getD p.1 defaultTracker)
               p.1 p.2),
           warnings := [] },
         (pipeState o headers rows).2) := rfl

theorem read_columns_get (o : Oracle) (shuffle : List String → List String)
    (fn : String) (headers : List String) (rows : List (List String))
    (opts : ProcessingOptions) (c : Nat) (col : ColumnSchema)
    (hcol : (read_with_recoding o shuffle fn headers rows opts).1.columns[c]?
        = some col) :
    ∃ header, headers[c]? = some header ∧
      col = buildColumn o shuffle opts (pipeState o headers rows).2
        ((headers.map o.check_column_name).getD c ColumnNameResult.safe)
        ((pipeDtypes o headers rows).getD c DType.String)
        ((pipeState o headers rows).1.getD c defaultTracker)
        c header := by
  rw [read_with_recoding_eq] at hcol
  dsimp only at hcol
  rw [List.getElem?_map] at hcol
  rw [show headers.enum = List.enumFrom 0 headers from rfl] at hcol
  rw [List.getElem?_enumFrom] at hcol
  rcases hh : headers[c]? with - | header
  · rw [hh] at hcol
    cases hcol
  · rw [hh] at hcol
    simp only [Option.map_some', Nat.zero_add, Option.some.injEq] at hcol
    exact ⟨header, rfl, hcol.symm⟩

/-! ## Claim C1 (amended): Phi columns -/

/-- **C1 (amended).** Every Phi-classified column of the assembled sheet
has its name Suppressed and no `unique_values`.  (The original claim's
further statistics clause fails: see the counterexample below.) -/
theorem claim_C1_phi_amended (o : Oracle) (shuffle : List String → List String)
    (fn : String) (headers : List String) (rows : List (List String))
    (opts : ProcessingOptions) (c : Nat) (col : ColumnSchema)
    (hcol : (read_with_recoding o shuffle fn headers rows opts).1.columns[c]?
        = some col)
    (hphi : col.classification = Classification.Phi) :
    col.name = SafeValue.Suppressed "Column name matches PHI pattern" ∧
    col.unique_values = none := by
  rcases read_columns_get o shuffle fn headers rows opts c col hcol with
    ⟨header, -, hcoleq⟩
  subst hcoleq
  exact buildColumn_phi o shuffle opts _ _ _ _ c header hphi

/-- Witness for C1 (amended): a `ssn` column with non-numeric values. -/
theorem claim_C1_phi_amended_witness :
    (read_with_recoding testOracle id "t.csv" ["ssn"] [["xa"], ["xb"]]
        ProcessingOptions.default).1.columns[0]?
      = some ((read_with_recoding testOracle id "t.csv" ["ssn"] [["xa"], ["xb"]]
        ProcessingOptions.default).1.columns.getD 0 (ColumnSchema.new
          (SafeValue.ShortString "") 0 DType.String)) ∧
    ((read_with_recoding testOracle id "t.csv" ["ssn"] [["xa"], ["xb"]]
        ProcessingOptions.default).1.columns.getD 0 (ColumnSchema.new
          (SafeValue.ShortString "") 0 DType.String)).classification
      = Classification.Phi ∧
    ((read_with_recoding testOracle id "t.csv" ["ssn"] [["xa"], ["xb"]]
        ProcessingOptions.default).1.columns.getD 0 (ColumnSchema.new
          (SafeValue.ShortString "") 0 DType.String)).name
      = SafeValue.Suppressed "Column name matches PHI pattern" ∧
    ((read_with_recoding testOracle id "t.csv" ["ssn"] [["xa"], ["xb"]]
        ProcessingOptions.default).1.columns.getD 0 (ColumnSchema.new
          (SafeValue.ShortString "") 0 DType.String)).unique_values = none := by
  refine ⟨by decide, by decide, ?_⟩
  exact claim_C1_phi_amended testOracle id "t.csv" ["ssn"] [["xa"], ["xb"]]
    ProcessingOptions.default 0 _ (by decide) (by decide)

/-- Counterexample to C1 as stated: a Phi column of numeric type emits its
raw minimum (an original cell value), maximum, and mean unsuppressed. -/
theorem claim_C1_counterexample :
    ((read_with_recoding testOracle id "t.csv" ["ssn"] [["7"], ["8"], ["9"]]
        ProcessingOptions.default).1.columns.map
      (fun col => (col.classification,
        col.stats.map (fun s => (s.min, s.max)))))
      = [(Classification.Phi,
          some (some (SafeValue.Float 7), some (SafeValue.Float 9)))] := by
  decide

/-! ## Claim C5 (amended): what the emitted counts actually count -/

theorem getD_replicate {α : Type} (n c : Nat) (a d : α) (h : c < n) :
    (List.replicate n a).getD c d = a := by
  unfold List.getD
  rw [List.get?_eq_getElem?, List.getElem?_replicate, if_pos h]
  rfl

theorem buildColumn_dtype (o : Oracle) (shuffle : List String → List String)
    (options : ProcessingOptions) (reg : RecodeRegistry)
    (check : ColumnNameResult) (dtype : DType) (tracker : ColumnStatTracker)
    (col_idx : Nat) (header : String) :
    (buildColumn o shuffle options reg check dtype tracker col_idx
      header).dtype = dtype := rfl

/-- The tracker a column ends pass 2 with, as the per-column fold over its
cell stream. -/
theorem pipeState_tracker (o : Oracle) (headers : List String)
    (rows : List (List String)) (c : Nat) (hc : c < headers.length) :
    ((pipeState o headers rows).1.getD c defaultTracker,
      (pipeState o headers rows).2.recoders.lookup c)
      = colFold o ((pipeDtypes o headers rows).getD c DType.String)
          (ColumnStatTracker.new MAX_UNIQUE_VALUES,
            (registerRecodeColumns headers
              (headers.map o.check_column_name)).recoders.lookup c)
          (columnCells rows c) := by
  unfold pipeState
  have h := pass2_col o headers.length (pipeDtypes o headers rows) c hc rows
    (List.replicate headers.length (ColumnStatTracker.new MAX_UNIQUE_VALUES))
    (registerRecodeColumns headers (headers.map o.check_column_name))
    (by rw [List.length_replicate])
  rw [h.2]
  rw [getD_replicate _ _ _ _ hc]

/-- **C5 (amended).** For every assembled column, the emitted
`stats.count` is the (possibly bucketed) number of cells the numeric path
observed — the cells that are non-missing and, the column's frozen type
being Integer or Numeric, parse as numbers — and `stats.missing_count` is
the number of missing cells of the column.  (The original claim's "count
equals the number of non-missing cells regardless of type" fails for
non-numeric columns: see the counterexample.) -/
theorem claim_C5_counts_amended (o : Oracle) (shuffle : List String → List String)
    (fn : String) (headers : List String) (rows : List (List String))
    (opts : ProcessingOptions) (c : Nat) (col : ColumnSchema)
    (hcol : (read_with_recoding o shuffle fn headers rows opts).1.columns[c]?
        = some col) :
    ∃ s, col.stats = some s ∧
      s.count = some (safe_count
        ((columnCells rows c).filterMap (numericObs o col.dtype)).length
        opts.bucket_counts) ∧
      s.missing_count = some (safe_count
        ((columnCells rows c).filter (fun f => is_missing f)).length
        opts.bucket_counts) := by
  rcases read_columns_get o shuffle fn headers rows opts c col hcol with
    ⟨header, hh, hcoleq⟩
  have hclen : c < headers.length := by
    rcases List.getElem?_eq_some.mp hh with ⟨hlt, -⟩
    exact hlt
  have htr := pipeState_tracker o headers rows c hclen
  have htr1 : (pipeState o headers rows).1.getD c defaultTracker
      = (colFold o ((pipeDtypes o headers rows).getD c DType.String)
          (ColumnStatTracker.new MAX_UNIQUE_VALUES,
            (registerRecodeColumns headers
              (headers.map o.check_column_name)).recoders.lookup c)
          (columnCells rows c)).1 := congrArg Prod.fst htr
  subst hcoleq
  rcases buildColumn_counts o shuffle opts (pipeState o headers rows).2
      ((headers.map o.check_column_name).getD c ColumnNameResult.safe)
      ((pipeDtypes o headers rows).getD c DType.String)
      ((pipeState o headers rows).1.getD c defaultTracker) c header with
    ⟨s, hstats, hcount, hmiss⟩
  refine ⟨s, hstats, ?_, ?_⟩
  · rw [hcount, buildColumn_dtype]
    have hw : ((pipeState o headers rows).1.getD c defaultTracker).welford
        = ((columnCells rows c).filterMap
            (numericObs o ((pipeDtypes o headers rows).getD c DType.String))).foldl
          WelfordStats.update WelfordStats.new := by
      rw [htr1]
      exact colFold_welford o _ (columnCells rows c) _
    rw [hw, welford_foldl_count]
    simp [WelfordStats.new]
  · rw [hmiss]
    have hm : ((pipeState o headers rows).1.getD c defaultTracker).missing_count
        = ((columnCells rows c).filter (fun f => is_missing f)).length := by
      rw [htr1]
      have := colFold_missing o ((pipeDtypes o headers rows).getD c DType.String)
        (columnCells rows c)
        (ColumnStatTracker.new MAX_UNIQUE_VALUES,
          (registerRecodeColumns headers
            (headers.map o.check_column_name)).recoders.lookup c)
      rw [this]
      simp [ColumnStatTracker.new]
    rw [hm]

/-- Witness for C5 (amended): the specification's own example, a column of
`1, NA, 2, <empty>, 3` with `bucket_counts = false`, where the amended
count is the exact integer 3 and the missing count 2. -/
theorem claim_C5_counts_amended_witness :
    (read_with_recoding testOracle id "t.csv" ["col"]
        [["1"], ["NA"], ["2"], [""], ["3"]]
        { ProcessingOptions.default with bucket_counts := false }).1.columns[0]?
      = some ((read_with_recoding testOracle id "t.csv" ["col"]
        [["1"], ["NA"], ["2"], [""], ["3"]]
        { ProcessingOptions.default with bucket_counts := false }).1.columns.getD 0
          (ColumnSchema.new (SafeValue.ShortString "") 0 DType.String)) ∧
    (∃ s, ((read_with_recoding testOracle id "t.csv" ["col"]
        [["1"], ["NA"], ["2"], [""], ["3"]]
        { ProcessingOptions.default with bucket_counts := false }).1.columns.getD 0
          (ColumnSchema.new (SafeValue.ShortString "") 0 DType.String)).stats
        = some s ∧
      s.count = some (safe_count
        ((columnCells [["1"], ["NA"], ["2"], [""], ["3"]] 0).filterMap
          (numericObs testOracle
            ((read_with_recoding testOracle id "t.csv" ["col"]
              [["1"], ["NA"], ["2"], [""], ["3"]]
              { ProcessingOptions.default with bucket_counts := false }).1.columns.getD 0
                (ColumnSchema.new (SafeValue.ShortString "") 0 DType.String)).dtype)).length
        false) ∧
      s.missing_count = some (safe_count
        ((columnCells [["1"], ["NA"], ["2"], [""], ["3"]] 0).filter
          (fun f => is_missing f)).length false)) ∧
    safe_count ((columnCells [["1"], ["NA"], ["2"], [""], ["3"]] 0).filterMap
        (numericObs testOracle DType.Integer)).length false = SafeValue.Integer 3 ∧
    safe_count ((columnCells [["1"], ["NA"], ["2"], [""], ["3"]] 0).filter
        (fun f => is_missing f)).length false = SafeValue.Integer 2 := by
  refine ⟨rfl, ?_, by decide, by decide⟩
  exact claim_C5_counts_amended testOracle id "t.csv" ["col"]
    [["1"], ["NA"], ["2"], [""], ["3"]]
    { ProcessingOptions.default with bucket_counts := false } 0 _ rfl

/-- Counterexample to C5 as stated: a String-typed column with two
non-missing cells emits `stats.count = Integer 0`, not 2 — the emitted
count is the Welford count, which only numeric-typed parses feed. -/
theorem claim_C5_counterexample :
    ((read_with_recoding testOracle id "t.csv" ["col"] [["a"], ["b"]]
        { ProcessingOptions.default with bucket_counts := false }).1.columns.map
      (fun col => (col.dtype, col.stats.map (fun s => (s.count, s.missing_count)))))
      = [(DType.String,
          some (some (SafeValue.Integer 0), some (SafeValue.Integer 0)))] ∧
    ((columnCells [["a"], ["b"]] 0).filter (fun f => !is_missing f)).length = 2 := by
  exact ⟨by decide, by decide⟩

/-! ## Claim C2: Safe/Warning unique values are k-anonymous -/

theorem getD_map_check (headers : List String) (c : Nat) (header : String)
    (f : String → ColumnNameResult) (hh : headers[c]? = some header) :
    (headers.map f).getD c ColumnNameResult.safe = f header := by
  unfold List.getD
  rw [List.get?_eq_getElem?, List.getElem?_map, hh]
  rfl

/-- **C2.** Every value listed in the emitted `unique_values` of a column
classified Safe or Warning occurs at least `k_anonymity` times among the
column's cells, is not judged PHI by the value-pattern matcher, and is at
most 32 bytes long.  (`shuffle` ranges over the permutation-valued
functions, the faithful models of `HashSet` iteration.) -/
theorem claim_C2_safe_unique_values (o : Oracle)
    (shuffle : List String → List String) (fn : String)
    (headers : List String) (rows : List (List String))
    (opts : ProcessingOptions) (c : Nat) (col : ColumnSchema)
    (uvs : List SafeValue) (sv : SafeValue)
    (hperm : ∀ l, List.Perm (shuffle l) l)
    (hcol : (read_with_recoding o shuffle fn headers rows opts).1.columns[c]?
        = some col)
    (hcls : col.classification = Classification.Safe
      ∨ col.classification = Classification.Warning)
    (huv : col.unique_values = some uvs) (hsv : sv ∈ uvs) :
    ∃ v, sv = SafeValue.ShortString v ∧
      opts.k_anonymity ≤ (columnCells rows c).count v ∧
      (o.check_value_pattern v).is_phi = false ∧
      v.utf8ByteSize ≤ 32 := by
  rcases read_columns_get o shuffle fn headers rows opts c col hcol with
    ⟨header, hh, hcoleq⟩
  have hclen : c < headers.length := by
    rcases List.getElem?_eq_some.mp hh with ⟨hlt, -⟩
    exact hlt
  subst hcoleq
  rcases buildColumn_safe_warning o shuffle opts (pipeState o headers rows).2
      ((headers.map o.check_column_name).getD c ColumnNameResult.safe)
      ((pipeDtypes o headers rows).getD c DType.String)
      ((pipeState o headers rows).1.getD c defaultTracker) c header hcls with
    ⟨hchk, hhc, hloop⟩
  have huvs := hloop uvs huv
  -- The column is not registered for recoding.
  have hreg : (registerRecodeColumns headers
      (headers.map o.check_column_name)).recoders.lookup c = none := by
    rw [registerRecodeColumns_lookup]
    rw [if_neg ?hne]
    case hne =>
      intro habs
      unfold isRecodeAt at habs
      rw [List.getElem?_map, hh] at habs
      simp only [Option.map_some'] at habs
      rw [getD_map_check headers c header o.check_column_name hh] at hchk
      rw [beq_iff_eq] at habs
      rcases hchk with h2 | h2 <;> rw [h2] at habs <;> cases habs
  -- The tracker is the add-stream over the column's non-missing cells.
  have htr := pipeState_tracker o headers rows c hclen
  rw [hreg] at htr
  have htr1 : (pipeState o headers rows).1.getD c defaultTracker
      = (colFold o ((pipeDtypes o headers rows).getD c DType.String)
          (ColumnStatTracker.new MAX_UNIQUE_VALUES, none) (columnCells rows c)).1 :=
    congrArg Prod.fst htr
  have huniq : ((pipeState o headers rows).1.getD c
        defaultTracker).unique_tracker
      = addAll (CappedUniqueTracker.new MAX_UNIQUE_VALUES)
          ((columnCells rows c).filter (fun f => !is_missing f)) := by
    rw [htr1]
    exact (colFold_unique_none o _ (columnCells rows c) _).2
  -- Unpack the invariant of the stream of adds.
  have hinvar := trackerInv_of_stream
    ((columnCells rows c).filter (fun f => !is_missing f))
  rw [← huniq] at hinvar
  rcases hinvar hhc with ⟨hvals, hcounts⟩
  -- Unpack the survivor.
  rcases mem_buildUniqueValuesLoop o opts.k_anonymity
      (some ((pipeState o headers rows).1.getD c
        defaultTracker).unique_tracker.value_counts)
      (shuffle ((pipeState o headers rows).1.getD c
        defaultTracker).unique_tracker.values) sv (by rw [← huvs]; exact hsv) with
    ⟨v, hsveq, hvmem, hkcount, hphi, hlen32⟩
  have hvmem2 : v ∈ ((pipeState o headers rows).1.getD c
      defaultTracker).unique_tracker.values :=
    (List.Perm.mem_iff (hperm _)).mp hvmem
  have hvstream : v ∈ (columnCells rows c).filter (fun f => !is_missing f) := by
    rw [hvals] at hvmem2
    rcases (mem_foldl_insertValue _ [] v).mp hvmem2 with h | h
    · cases h
    · exact h
  have hcount : ((pipeState o headers rows).1.getD c
        defaultTracker).unique_tracker.value_counts.lookup v
      = some (((columnCells rows c).filter (fun f => !is_missing f)).count v) := by
    rw [hcounts v, if_pos hvstream]
  refine ⟨v, hsveq, ?_, hphi, hlen32⟩
  have hk2 : opts.k_anonymity
      ≤ ((columnCells rows c).filter (fun f => !is_missing f)).count v := by
    simp only [Option.some_bind] at hkcount
    rw [hcount] at hkcount
    simpa using hkcount
  have hfil : ((columnCells rows c).filter (fun f => !is_missing f)).count v
      = (columnCells rows c).count v := by
    apply List.count_filter
    exact (List.mem_filter.mp hvstream).2
  rw [← hfil]
  exact hk2

/-- Witness for C2: a Safe column whose single value occurs five times with
the default threshold k = 5. -/
theorem claim_C2_safe_unique_values_witness :
    (∀ l : List String, List.Perm (id l) l) ∧
    (read_with_recoding testOracle id "t.csv" ["arm"]
        [["x"], ["x"], ["x"], ["x"], ["x"]]
        ProcessingOptions.default).1.columns[0]?
      = some ((read_with_recoding testOracle id "t.csv" ["arm"]
        [["x"], ["x"], ["x"], ["x"], ["x"]]
        ProcessingOptions.default).1.columns.getD 0
          (ColumnSchema.new (SafeValue.ShortString "") 0 DType.String)) ∧
    ((read_with_recoding testOracle id "t.csv" ["arm"]
        [["x"], ["x"], ["x"], ["x"], ["x"]]
        ProcessingOptions.default).1.columns.getD 0
          (ColumnSchema.new (SafeValue.ShortString "") 0 DType.String)).unique_values
      = some [SafeValue.ShortString "x"] ∧
    (∃ v, SafeValue.ShortString "x" = SafeValue.ShortString v ∧
      ProcessingOptions.default.k_anonymity
        ≤ (columnCells [["x"], ["x"], ["x"], ["x"], ["x"]] 0).count v ∧
      (testOracle.check_value_pattern v).is_phi = false ∧
      v.utf8ByteSize ≤ 32) := by
  refine ⟨fun l => List.Perm.refl l, rfl, by decide, ?_⟩
  exact claim_C2_safe_unique_values testOracle id "t.csv" ["arm"]
    [["x"], ["x"], ["x"], ["x"], ["x"]] ProcessingOptions.default 0 _
    [SafeValue.ShortString "x"] (SafeValue.ShortString "x")
    (fun l => List.Perm.refl l) rfl (by left; decide) (by decide)
    (List.mem_singleton.mpr rfl)

/-! ## Claim C4 (amended): what sees labels and what sees originals -/

/-- **C4 (amended).** For a column whose name check classifies it Recode,
the string-level downstream of pass 2 sees only substituted labels: every
value held by the column's unique tracker is a label handed out by the
column's recoder (returned in the registry).  The numeric estimators,
however, are fed the parsed original cell values: the column's final
Welford state is the fold of `WelfordStats.update` over the parses of the
original cells.  (The original claim's "the online statistics never
observe the original cell value" fails on the numeric path: see the
counterexample.) -/
theorem claim_C4_recode_amended (o : Oracle)
    (shuffle : List String → List String) (fn : String)
    (headers : List String) (rows : List (List String))
    (opts : ProcessingOptions) (c : Nat) (ch : ColumnNameResult)
    (hch : (headers.map o.check_column_name)[c]? = some ch)
    (hrec : ch.classification = Classification.Recode) :
    ∃ r, (read_with_recoding o shuffle fn headers rows
        opts).2.recoders.lookup c = some r ∧
      (∀ v ∈ ((pipeState o headers rows).1.getD c
          defaultTracker).unique_tracker.values, v ∈ labelsOf r) ∧
      ((pipeState o headers rows).1.getD c defaultTracker).welford
        = ((columnCells rows c).filterMap
            (numericObs o ((pipeDtypes o headers rows).getD c
              DType.String))).foldl WelfordStats.update WelfordStats.new := by
  have hclen : c < headers.length := by
    rcases List.getElem?_eq_some.mp hch with ⟨hlt, -⟩
    rw [List.length_map] at hlt
    exact hlt
  have hreg : (registerRecodeColumns headers
      (headers.map o.check_column_name)).recoders.lookup c
      = some (ValueRecoder.new ( determine_recode_prefix (headers.getD c ""))) := by
    rw [registerRecodeColumns_lookup]
    rw [if_pos ?hpos]
    case hpos =>
      unfold isRecodeAt
      rw [hch]
      dsimp only
      rw [hrec]
      rfl
  have htr := pipeState_tracker o headers rows c hclen
  rw [hreg] at htr
  rcases colFold_recode_labels o ((pipeDtypes o headers rows).getD c DType.String)
      (columnCells rows c) (ColumnStatTracker.new MAX_UNIQUE_VALUES)
      (ValueRecoder.new ( determine_recode_prefix (headers.getD c "")))
      (by intro v hv; cases hv) with
    ⟨r2, hsnd, hsub⟩
  have htr1 : (pipeState o headers rows).1.getD c defaultTracker
      = (colFold o ((pipeDtypes o headers rows).getD c DType.String)
          (ColumnStatTracker.new MAX_UNIQUE_VALUES,
            some (ValueRecoder.new ( determine_recode_prefix (headers.getD c ""))))
          (columnCells rows c)).1 := congrArg Prod.fst htr
  have htr2 : (pipeState o headers rows).2.recoders.lookup c
      = (colFold o ((pipeDtypes o headers rows).getD c DType.String)
          (ColumnStatTracker.new MAX_UNIQUE_VALUES,
            some (ValueRecoder.new ( determine_recode_prefix (headers.getD c ""))))
          (columnCells rows c)).2 := congrArg Prod.snd htr
  refine ⟨r2, ?_, ?_, ?_⟩
  · rw [read_with_recoding_eq]
    dsimp only
    rw [htr2, hsnd]
  · intro v hv
    apply hsub
    rw [htr1] at hv
    exact hv
  · rw [htr1]
    exact colFold_welford o _ (columnCells rows c) _

/-- Witness for C4 (amended) at a concrete `site` column. -/
theorem claim_C4_recode_amended_witness :
    (["site"].map testOracle.check_column_name)[0]?
        = some (ColumnNameResult.recode "site") ∧
    (ColumnNameResult.recode "site").classification = Classification.Recode ∧
    (∃ r, (read_with_recoding testOracle id "t.csv" ["site"] [["s1"], ["s2"]]
        ProcessingOptions.default).2.recoders.lookup 0 = some r ∧
      (∀ v ∈ ((pipeState testOracle ["site"] [["s1"], ["s2"]]).1.getD 0
          defaultTracker).unique_tracker.values, v ∈ labelsOf r) ∧
      ((pipeState testOracle ["site"] [["s1"], ["s2"]]).1.getD 0
          defaultTracker).welford
        = ((columnCells [["s1"], ["s2"]] 0).filterMap
            (numericObs testOracle
              ((pipeDtypes testOracle ["site"] [["s1"], ["s2"]]).getD 0
                DType.String))).foldl WelfordStats.update WelfordStats.new) := by
  refine ⟨by decide, by decide, ?_⟩
  exact claim_C4_recode_amended testOracle id "t.csv" ["site"] [["s1"], ["s2"]]
    ProcessingOptions.default 0 (ColumnNameResult.recode "site") (by decide)
    (by decide)

/-- Counterexample to C4 as stated: a Recode column whose cells are
numeric.  The emitted minimum equals the original cell value 101 — the
Welford estimator observed the original, not the substituted label. -/
theorem claim_C4_counterexample :
    ((read_with_recoding testOracle id "t.csv" ["site"] [["101"]]
        ProcessingOptions.default).1.columns.map
      (fun col => (col.classification, col.dtype,
        col.stats.map (fun s => s.min))))
      = [(Classification.Recode, DType.Integer,
          some (some (SafeValue.Float 101)))] := by
  decide

/-! ## Claim C10: rows shorter or longer than the header -/

theorem getElem?_listModify_ne {α : Type} (f : α → α) :
    ∀ (l : List α) (i c : Nat), i ≠ c → (listModify l i f)[c]? = l[c]? := by
  intro l
  induction l with
  | nil =>
      intro i c h
      cases i <;> rfl
  | cons a as ih =>
      intro i c h
      cases i with
      | zero =>
          cases c with
          | zero => omega
          | succ m => simp [listModify]
      | succ n =>
          cases c with
          | zero => simp [listModify]
          | succ m =>
              simp only [listModify, List.getElem?_cons_succ]
              exact ih n m (by omega)

theorem mem_enumFrom_fst {γ : Type} :
    ∀ (row : List γ) (k : Nat) (p : Nat × γ),
      p ∈ List.enumFrom k row → k ≤ p.1 ∧ p.1 < k + row.length := by
  intro row
  induction row with
  | nil =>
      intro k p hp
      cases hp
  | cons a as ih =>
      intro k p hp
      rw [List.enumFrom_cons] at hp
      rcases List.mem_cons.mp hp with hp | hp
      · subst hp
        simp only [List.length_cons]
        omega
      · rcases ih (k + 1) p hp with ⟨h1, h2⟩
        simp only [List.length_cons]
        omega

theorem pass1Row_pairs_untouched (o : Oracle) (num_cols : Nat) (c : Nat) :
    ∀ (pairs : List (Nat × String)) (infs : List TypeInferencer),
      (∀ p ∈ pairs, p.1 ≠ c) →
      (pairs.foldl
        (fun infs p =>
          if p.1 < num_cols then listModify infs p.1 (fun inf => inf.observe o p.2)
          else infs) infs)[c]?
        = infs[c]? := by
  intro pairs
  induction pairs with
  | nil => intro infs h; rfl
  | cons p rest ih =>
      intro infs h
      rw [List.foldl_cons]
      by_cases hp : p.1 < num_cols
      · rw [if_pos hp]
        rw [ih _ (fun q hq => h q (List.mem_cons_of_mem _ hq))]
        exact getElem?_listModify_ne _ infs _ _ (h p (List.mem_cons_self _ _))
      · rw [if_neg hp]
        exact ih _ (fun q hq => h q (List.mem_cons_of_mem _ hq))

theorem pass2Cells_pairs_untouched (o : Oracle) (num_cols : Nat)
    (dtypes : List DType) (c : Nat) :
    ∀ (cells : List (Nat × String)) (st : List ColumnStatTracker × RecodeRegistry),
      (∀ p ∈ cells, p.1 ≠ c) →
      (pass2Cells o num_cols dtypes st cells).1[c]? = st.1[c]? := by
  intro cells
  induction cells with
  | nil => intro st h; rfl
  | cons p rest ih =>
      intro st h
      by_cases hp : p.1 < num_cols
      · have hstep : pass2Cells o num_cols dtypes st (p :: rest)
            = pass2Cells o num_cols dtypes
                (st.1.set p.1 (processCell o (dtypes.getD p.1 DType.String) p.1 p.2
                    (st.1.getD p.1 (ColumnStatTracker.new MAX_UNIQUE_VALUES)) st.2).1,
                 (processCell o (dtypes.getD p.1 DType.String) p.1 p.2
                    (st.1.getD p.1 (ColumnStatTracker.new MAX_UNIQUE_VALUES)) st.2).2)
                rest := by
          unfold pass2Cells
          rw [List.foldl_cons, if_pos hp]
          try rfl
        rw [hstep]
        rw [ih _ (fun q hq => h q (List.mem_cons_of_mem _ hq))]
        dsimp only
        rw [List.getElem?_set]
        rw [if_neg (h p (List.mem_cons_self _ _))]
      · have hstep : pass2Cells o num_cols dtypes st (p :: rest)
            = pass2Cells o num_cols dtypes st rest := by
          unfold pass2Cells
          rw [List.foldl_cons, if_neg hp]
        rw [hstep]
        exact ih st (fun q hq => h q (List.mem_cons_of_mem _ hq))

theorem foldl_guard_filter {β γ : Type} (g : β → Nat × γ → β) (n : Nat)
    (hg : ∀ b p, ¬p.1 < n → g b p = b) :
    ∀ (l : List (Nat × γ)) (b : β),
      l.foldl g b = (l.filter (fun p => decide (p.1 < n))).foldl g b := by
  intro l
  induction l with
  | nil => intro b; rfl
  | cons p rest ih =>
      intro b
      rw [List.foldl_cons, List.filter_cons]
      by_cases hp : p.1 < n
      · rw [if_pos (decide_eq_true hp), List.foldl_cons]
        exact ih (g b p)
      · rw [if_neg (by rw [decide_eq_false hp]; exact Bool.false_ne_true)]
        rw [hg b p hp]
        exact ih b

theorem enumFrom_take_filter {γ : Type} :
    ∀ (row : List γ) (n k : Nat),
      List.enumFrom k (row.take n)
        = (List.enumFrom k row).filter (fun p => decide (p.1 < k + n)) := by
  intro row
  induction row with
  | nil =>
      intro n k
      simp
  | cons a as ih =>
      intro n k
      cases n with
      | zero =>
          simp only [List.take_zero]
          have hall : ∀ p ∈ List.enumFrom k (a :: as), ¬p.1 < k + 0 := by
            intro p hp
            rcases mem_enumFrom_fst (a :: as) k p hp with ⟨h1, -⟩
            omega
          rw [List.filter_eq_nil_iff.mpr ?hnil]
          case hnil =>
            intro p hp
            rw [Bool.not_eq_true]
            rw [decide_eq_false (hall p hp)]
          rfl
      | succ m =>
          rw [List.take_succ_cons, List.enumFrom_cons, List.enumFrom_cons,
            List.filter_cons]
          rw [if_pos (decide_eq_true (by omega))]
          rw [ih m (k + 1)]
          have hpred : (fun p : Nat × γ => decide (p.1 < (k + 1) + m))
              = (fun p : Nat × γ => decide (p.1 < k + (m + 1))) := by
            funext p
            exact decide_eq_decide.mpr (by omega)
          rw [hpred]

/-- **C10.** A data row's cells beyond the header width are ignored
entirely (processing a row is processing its first `num_cols` cells, in
both passes), and a row shorter than the header leaves the type
inferencers and the statistics trackers of the absent trailing columns
untouched — in particular those cells are not counted as missing. -/
theorem claim_C10_row_width (o : Oracle) (num_cols : Nat)
    (dtypes : List DType) (infs : List TypeInferencer)
    (st : List ColumnStatTracker × RecodeRegistry) (row : List String)
    (c : Nat) :
    (pass1Row o num_cols infs row
      = pass1Row o num_cols infs (row.take num_cols)) ∧
    (pass2Row o num_cols dtypes st row
      = pass2Row o num_cols dtypes st (row.take num_cols)) ∧
    (row.length ≤ c → (pass1Row o num_cols infs row)[c]? = infs[c]?) ∧
    (row.length ≤ c → (pass2Row o num_cols dtypes st row).1[c]? = st.1[c]?) := by
  have henum : (row.take num_cols).enum
      = row.enum.filter (fun p => decide (p.1 < num_cols)) := by
    have h := enumFrom_take_filter row num_cols 0
    rw [show (0 : Nat) + num_cols = num_cols from by omega] at h
    exact h
  refine ⟨?_, ?_, ?_, ?_⟩
  · unfold pass1Row
    rw [henum]
    exact foldl_guard_filter _ num_cols
      (fun b p hp => by rw [if_neg hp]) row.enum infs
  · unfold pass2Row pass2Cells
    rw [henum]
    exact foldl_guard_filter _ num_cols
      (fun b p hp => by rw [if_neg hp]) row.enum st
  · intro hrow
    unfold pass1Row
    apply pass1Row_pairs_untouched
    intro p hp
    rcases mem_enumFrom_fst row 0 p hp with ⟨-, h2⟩
    omega
  · intro hrow
    unfold pass2Row
    apply pass2Cells_pairs_untouched
    intro p hp
    rcases mem_enumFrom_fst row 0 p hp with ⟨-, h2⟩
    omega

/-- Witness for C10: a one-cell row against a two-column header. -/
theorem claim_C10_row_width_witness :
    (pass1Row testOracle 2 [TypeInferencer.new, TypeInferencer.new] ["a", "b", "c"]
      = pass1Row testOracle 2 [TypeInferencer.new, TypeInferencer.new]
          (["a", "b", "c"].take 2)) ∧
    (["a"].length ≤ 1 ∧
      (pass1Row testOracle 2 [TypeInferencer.new, TypeInferencer.new] ["a"])[1]?
        = [TypeInferencer.new, TypeInferencer.new][1]?) := by
  refine ⟨(claim_C10_row_width testOracle 2 [] [TypeInferencer.new,
    TypeInferencer.new] ([], RecodeRegistry.new) ["a", "b", "c"] 0).1,
    by decide, ?_⟩
  exact (claim_C10_row_width testOracle 2 [] [TypeInferencer.new,
    TypeInferencer.new] ([], RecodeRegistry.new) ["a"] 1).2.2.1 (by decide)

/-! ## Claim C3: determinism, modulo `HashSet` iteration order -/

/-- A recoder fed a whole stream of originals (pass-2 `recode` iterated in
row order). -/
def recodeList (r : ValueRecoder) (xs : List String) : ValueRecoder :=
  xs.foldl (fun r x => (r.recode x).2) r

/-- The mapping that assigns the `i`-th distinct value (0-based, offset
`k`) the label `prefix_{index_to_label i}`. -/
def labelMapFrom (pfx : String) (k : Nat) (l : List String) :
    List (String × String) :=
  (List.enumFrom k l).map (fun p => (p.2, pfx ++ "_" ++ index_to_label p.1))

theorem labelMapFrom_append_singleton (pfx : String) (x : String) :
    ∀ (l : List String) (k : Nat),
      labelMapFrom pfx k (l ++ [x])
        = labelMapFrom pfx k l
          ++ [(x, pfx ++ "_" ++ index_to_label (k + l.length))] := by
  intro l
  induction l with
  | nil =>
      intro k
      simp [labelMapFrom, List.enumFrom]
  | cons a as ih =>
      intro k
      simp only [List.cons_append, labelMapFrom, List.enumFrom_cons, List.map_cons]
      rw [show List.map (fun p : Nat × String =>
          (p.2, pfx ++ "_" ++ index_to_label p.1)) (List.enumFrom (k + 1) (as ++ [x]))
          = labelMapFrom pfx (k + 1) (as ++ [x]) from rfl]
      rw [ih (k + 1)]
      simp only [labelMapFrom, List.length_cons]
      rw [show (k + 1) + as.length = k + (as.length + 1) from by omega]
      try rfl

theorem lookup_labelMapFrom_not_mem (pfx x : String) :
    ∀ (l : List String) (k : Nat), x ∉ l →
      (labelMapFrom pfx k l).lookup x = none := by
  intro l
  induction l with
  | nil => intro k h; rfl
  | cons a as ih =>
      intro k h
      simp only [labelMapFrom, List.enumFrom_cons, List.map_cons, List.lookup]
      rw [show (x == a) = false from beq_eq_false_iff_ne.mpr
        (fun he => h (by rw [he]; exact List.mem_cons_self _ _))]
      exact ih (k + 1) (fun hm => h (List.mem_cons_of_mem _ hm))

theorem lookup_labelMapFrom_isSome (pfx x : String) :
    ∀ (l : List String) (k : Nat), x ∈ l →
      ((labelMapFrom pfx k l).lookup x).isSome = true := by
  intro l
  induction l with
  | nil =>
      intro k h
      cases h
  | cons a as ih =>
      intro k h
      simp only [labelMapFrom, List.enumFrom_cons, List.map_cons, List.lookup]
      by_cases hx : x = a
      · rw [show (x == a) = true from beq_iff_eq.mpr hx]
        rfl
      · rw [show (x == a) = false from beq_eq_false_iff_ne.mpr hx]
        rcases List.mem_cons.mp h with h2 | h2
        · exact absurd h2 hx
        · exact ih (k + 1) h2

theorem dedupFirst_append_singleton (seen : List String) (x : String) :
    dedupFirst (seen ++ [x]) = insertValue (dedupFirst seen) x := by
  unfold dedupFirst
  rw [List.foldl_append]
  rfl

theorem mem_dedupFirst (seen : List String) (x : String) :
    x ∈ dedupFirst seen ↔ x ∈ seen := by
  unfold dedupFirst
  rw [mem_foldl_insertValue]
  simp

theorem recode_on_labelMap (pfx : String) (seen : List String) (x : String) :
    (ValueRecoder.recode
        { mappings := labelMapFrom pfx 0 (dedupFirst seen),
          counter := (dedupFirst seen).length, label_prefix := pfx } x).2
      = { mappings := labelMapFrom pfx 0 (dedupFirst (seen ++ [x])),
          counter := (dedupFirst (seen ++ [x])).length, label_prefix := pfx } := by
  unfold ValueRecoder.recode
  by_cases hx : x ∈ seen
  · have hx2 : x ∈ dedupFirst seen := (mem_dedupFirst seen x).mpr hx
    have hsome := lookup_labelMapFrom_isSome pfx x (dedupFirst seen) 0 hx2
    have hsame : dedupFirst (seen ++ [x]) = dedupFirst seen := by
      rw [dedupFirst_append_singleton]
      unfold insertValue
      rw [if_pos (List.elem_eq_true_of_mem hx2)]
    rcases hl : (labelMapFrom pfx 0 (dedupFirst seen)).lookup x with - | lbl
    · rw [hl] at hsome
      cases hsome
    · dsimp only
      rw [hsame]
  · have hx2 : x ∉ dedupFirst seen := fun h => hx ((mem_dedupFirst seen x).mp h)
    have hnone := lookup_labelMapFrom_not_mem pfx x (dedupFirst seen) 0 hx2
    have hnew : dedupFirst (seen ++ [x]) = dedupFirst seen ++ [x] := by
      rw [dedupFirst_append_singleton]
      unfold insertValue
      rw [if_neg ?hni]
      case hni =>
        intro habs
        exact hx2 (List.mem_of_elem_eq_true habs)
    dsimp only
    rw [hnone]
    dsimp only [ValueRecoder.generate_label]
    rw [hnew]
    rw [labelMapFrom_append_singleton pfx x (dedupFirst seen) 0]
    rw [List.length_append]
    simp

theorem recodeList_labelMap (pfx : String) :
    ∀ (xs seen : List String),
      recodeList
        { mappings := labelMapFrom pfx 0 (dedupFirst seen),
          counter := (dedupFirst seen).length, label_prefix := pfx } xs
      = { mappings := labelMapFrom pfx 0 (dedupFirst (seen ++ xs)),
          counter := (dedupFirst (seen ++ xs)).length, label_prefix := pfx } := by
  intro xs
  induction xs with
  | nil =>
      intro seen
      simp only [List.append_nil]
      rfl
  | cons x xs ih =>
      intro seen
      unfold recodeList
      rw [List.foldl_cons]
      rw [recode_on_labelMap pfx seen x]
      have := ih (seen ++ [x])
      unfold recodeList at this
      rw [this]
      rw [List.append_assoc]
      rfl

/-- Structural equality of `Option (List SafeValue)` up to permutation of
the carried list. -/
def uvPerm : Option (List SafeValue) → Option (List SafeValue) → Prop
  | none, none => True
  | some l1, some l2 => List.Perm l1 l2
  | _, _ => False

theorem uvPerm_refl (x : Option (List SafeValue)) : uvPerm x x := by
  cases x with
  | none => trivial
  | some l => exact List.Perm.refl l

theorem buildColumn_shuffle (o : Oracle) (s1 s2 : List String → List String)
    (opts : ProcessingOptions) (reg : RecodeRegistry)
    (check : ColumnNameResult) (dtype : DType) (tracker : ColumnStatTracker)
    (i : Nat) (header : String)
    (h1 : ∀ l, List.Perm (s1 l) l) (h2 : ∀ l, List.Perm (s2 l) l) :
    (buildColumn o s1 opts reg check dtype tracker i header).name
        = (buildColumn o s2 opts reg check dtype tracker i header).name ∧
    (buildColumn o s1 opts reg check dtype tracker i header).index
        = (buildColumn o s2 opts reg check dtype tracker i header).index ∧
    (buildColumn o s1 opts reg check dtype tracker i header).dtype
        = (buildColumn o s2 opts reg check dtype tracker i header).dtype ∧
    (buildColumn o s1 opts reg check dtype tracker i header).classification
        = (buildColumn o s2 opts reg check dtype tracker i header).classification ∧
    (buildColumn o s1 opts reg check dtype tracker i header).stats
        = (buildColumn o s2 opts reg check dtype tracker i header).stats ∧
    (buildColumn o s1 opts reg check dtype tracker i header).warnings
        = (buildColumn o s2 opts reg check dtype tracker i header).warnings ∧
    uvPerm (buildColumn o s1 opts reg check dtype tracker i header).unique_values
      (buildColumn o s2 opts reg check dtype tracker i header).unique_values := by
  refine ⟨rfl, rfl, rfl, rfl, rfl, rfl, ?_⟩
  unfold buildColumn
  dsimp only
  by_cases hc1 : (if tracker.unique_tracker.is_high_cardinality = true
        ∧ check.classification ≠ Classification.Recode
        ∧ check.classification ≠ Classification.Phi then
      Classification.HighCardinality
    else check.classification) = Classification.Recode
  · rw [if_pos hc1, if_pos hc1]
    exact uvPerm_refl _
  · rw [if_neg hc1, if_neg hc1]
    by_cases hc2 : (if tracker.unique_tracker.is_high_cardinality = true
          ∧ check.classification ≠ Classification.Recode
          ∧ check.classification ≠ Classification.Phi then
        Classification.HighCardinality
      else check.classification) = Classification.Safe
      ∨ (if tracker.unique_tracker.is_high_cardinality = true
          ∧ check.classification ≠ Classification.Recode
          ∧ check.classification ≠ Classification.Phi then
        Classification.HighCardinality
      else check.classification) = Classification.Warning
    · rw [if_pos hc2, if_pos hc2]
      cases hv : tracker.unique_tracker.valuesOpt with
      | none => trivial
      | some vals =>
        dsimp only
        have hperm : List.Perm
            (buildUniqueValuesLoop o opts.k_anonymity
              tracker.unique_tracker.value_countsOpt (s1 vals))
            (buildUniqueValuesLoop o opts.k_anonymity
              tracker.unique_tracker.value_countsOpt (s2 vals)) := by
          rw [buildUniqueValuesLoop_eq, buildUniqueValuesLoop_eq]
          apply List.Perm.map
          apply List.Perm.filter
          exact (h1 vals).trans (h2 vals).symm
        by_cases hemp : (buildUniqueValuesLoop o opts.k_anonymity
            tracker.unique_tracker.value_countsOpt (s1 vals)).isEmpty = true
        · have hemp2 : (buildUniqueValuesLoop o opts.k_anonymity
              tracker.unique_tracker.value_countsOpt (s2 vals)).isEmpty = true := by
            rw [List.isEmpty_iff] at hemp ⊢
            rw [hemp] at hperm
            exact (List.Perm.nil_eq hperm).symm
          rw [if_pos hemp, if_pos hemp2]
          trivial
        · have hemp2 : ¬(buildUniqueValuesLoop o opts.k_anonymity
              tracker.unique_tracker.value_countsOpt (s2 vals)).isEmpty = true := by
            rw [List.isEmpty_iff] at hemp ⊢
            intro habs
            rw [habs] at hperm
            exact hemp (List.Perm.eq_nil hperm)
          rw [if_neg hemp, if_neg hemp2]
          exact hperm
    · rw [if_neg hc2, if_neg hc2]
      trivial

/-- Pointwise agreement of two column lists on every emitted field, up to
permutation of the `unique_values` lists. -/
def columnsAgreeUpToUV : List ColumnSchema → List ColumnSchema → Prop
  | [], [] => True
  | c1 :: t1, c2 :: t2 =>
      (c1.name = c2.name ∧ c1.index = c2.index ∧ c1.dtype = c2.dtype
        ∧ c1.classification = c2.classification ∧ c1.stats = c2.stats
        ∧ c1.warnings = c2.warnings
        ∧ uvPerm c1.unique_values c2.unique_values)
      ∧ columnsAgreeUpToUV t1 t2
  | _, _ => False

/-- Pointwise agreement of two sheet lists, up to permutation of
`unique_values`. -/
def sheetsAgreeUpToUV : List SheetSchema → List SheetSchema → Prop
  | [], [] => True
  | sh1 :: t1, sh2 :: t2 =>
      (sh1.name = sh2.name ∧ sh1.index = sh2.index
        ∧ sh1.row_count = sh2.row_count ∧ sh1.warnings = sh2.warnings
        ∧ columnsAgreeUpToUV sh1.columns sh2.columns)
      ∧ sheetsAgreeUpToUV t1 t2
  | _, _ => False

/-- Agreement of two manifests on every field, up to permutation of the
`unique_values` lists inside their sheets. -/
def manifestAgreeUpToUV (m1 m2 : ManifestSchema) : Prop :=
  m1.version = m2.version ∧ m1.file_name = m2.file_name
  ∧ m1.file_hash = m2.file_hash ∧ m1.format = m2.format
  ∧ m1.warnings = m2.warnings ∧ m1.options = m2.options
  ∧ sheetsAgreeUpToUV m1.sheets m2.sheets

/-- The column built for the `p`-th header by `read_with_recoding`
(abbreviation of the mapped function in `read_with_recoding_eq`). -/
def pipeColumn (o : Oracle) (s : List String → List String)
    (opts : ProcessingOptions) (headers : List String)
    (rows : List (List String)) (p : Nat × String) : ColumnSchema :=
  buildColumn o s opts (pipeState o headers rows).2
    ((headers.map o.check_column_name).getD p.1 ColumnNameResult.safe)
    ((pipeDtypes o headers rows).getD p.1 DType.String)
    ((pipeState o headers rows).1.getD p.1 defaultTracker)
    p.1 p.2

theorem columnsAgreeUpToUV_map (f1 f2 : Nat × String → ColumnSchema)
    (hf : ∀ p : Nat × String,
      (f1 p).name = (f2 p).name ∧ (f1 p).index = (f2 p).index
      ∧ (f1 p).dtype = (f2 p).dtype
      ∧ (f1 p).classification = (f2 p).classification
      ∧ (f1 p).stats = (f2 p).stats
      ∧ (f1 p).warnings = (f2 p).warnings
      ∧ uvPerm (f1 p).unique_values (f2 p).unique_values) :
    ∀ l : List (Nat × String),
      columnsAgreeUpToUV (l.map f1) (l.map f2) := by
  intro l
  induction l with
  | nil => trivial
  | cons a t ih => exact ⟨hf a, ih⟩

theorem warnFold_congr (name : String) (f1 f2 : Nat × String → ColumnSchema)
    (hf : ∀ p : Nat × String,
      (f1 p).index = (f2 p).index ∧ (f1 p).warnings = (f2 p).warnings) :
    ∀ (l : List (Nat × String)) (acc : List String),
      (l.map f1).foldl (fun acc col => col.warnings.foldl (fun acc w =>
          if acc.contains ("Sheet \x27" ++ name ++ "\x27, Column "
              ++ toString (col.index + 1) ++ ": " ++ w) then acc
          else acc ++ ["Sheet \x27" ++ name ++ "\x27, Column "
              ++ toString (col.index + 1) ++ ": " ++ w]) acc) acc
      = (l.map f2).foldl (fun acc col => col.warnings.foldl (fun acc w =>
          if acc.contains ("Sheet \x27" ++ name ++ "\x27, Column "
              ++ toString (col.index + 1) ++ ": " ++ w) then acc
          else acc ++ ["Sheet \x27" ++ name ++ "\x27, Column "
              ++ toString (col.index + 1) ++ ": " ++ w]) acc) acc := by
  intro l
  induction l with
  | nil => intro acc; rfl
  | cons a t ih =>
      intro acc
      simp only [List.map_cons, List.foldl_cons]
      simp only [(hf a).1, (hf a).2]
      exact ih _

/-- **C3 (amended).** Determinism modulo `HashSet` iteration order: for any
two faithful models of the hash-set iteration order (any two
permutation-valued `shuffle` functions), the two extracted manifests have
identical recode registries (hence identical label assignments) and agree
on every field, except that corresponding `unique_values` lists may be
permutations of each other rather than byte-identical; and the label
assignment of a recoder depends only on the first-appearance order of the
original values in the row stream.  (The original claim's byte-identical
manifests fail on `unique_values` order: see the counterexample.) -/
theorem claim_C3_determinism_amended (o : Oracle)
    (s1 s2 : List String → List String) (fn : String) (format : FileFormat)
    (file_hash : String) (headers : List String) (rows : List (List String))
    (opts : ProcessingOptions)
    (h1 : ∀ l, List.Perm (s1 l) l) (h2 : ∀ l, List.Perm (s2 l) l) :
    (extract_manifest o s1 fn format file_hash headers rows opts).2
      = (extract_manifest o s2 fn format file_hash headers rows opts).2
    ∧ manifestAgreeUpToUV
        (extract_manifest o s1 fn format file_hash headers rows opts).1
        (extract_manifest o s2 fn format file_hash headers rows opts).1
    ∧ (∀ pfx xs, recodeList (ValueRecoder.new pfx) xs
        = { mappings := labelMapFrom pfx 0 (dedupFirst xs),
            counter := (dedupFirst xs).length, label_prefix := pfx }) := by
  refine ⟨rfl, ⟨rfl, rfl, rfl, rfl, ?_, rfl, ⟨⟨rfl, rfl, rfl, rfl, ?_⟩,
    trivial⟩⟩, ?_⟩
  · exact warnFold_congr fn (pipeColumn o s1 opts headers rows)
      (pipeColumn o s2 opts headers rows) (fun p => ⟨rfl, rfl⟩)
      headers.enum []
  · exact columnsAgreeUpToUV_map (pipeColumn o s1 opts headers rows)
      (pipeColumn o s2 opts headers rows)
      (fun p => buildColumn_shuffle o s1 s2 opts (pipeState o headers rows).2
        ((headers.map o.check_column_name).getD p.1 ColumnNameResult.safe)
        ((pipeDtypes o headers rows).getD p.1 DType.String)
        ((pipeState o headers rows).1.getD p.1 defaultTracker)
        p.1 p.2 h1 h2)
      headers.enum
  · intro pfx xs
    exact recodeList_labelMap pfx xs []

/-- Witness for C3 (amended): the identity and reversal orders (both
permutation-valued) on a one-column file. -/
theorem claim_C3_determinism_amended_witness :
    (∀ l : List String, List.Perm (id l) l)
    ∧ (∀ l : List String, List.Perm l.reverse l)
    ∧ ((extract_manifest testOracle id "t.csv" FileFormat.Csv "h" ["arm"]
          [["x"], ["y"]] ProcessingOptions.default).2
        = (extract_manifest testOracle List.reverse "t.csv" FileFormat.Csv "h"
            ["arm"] [["x"], ["y"]] ProcessingOptions.default).2
      ∧ manifestAgreeUpToUV
          (extract_manifest testOracle id "t.csv" FileFormat.Csv "h" ["arm"]
            [["x"], ["y"]] ProcessingOptions.default).1
          (extract_manifest testOracle List.reverse "t.csv" FileFormat.Csv "h"
            ["arm"] [["x"], ["y"]] ProcessingOptions.default).1
      ∧ (∀ pfx xs, recodeList (ValueRecoder.new pfx) xs
          = { mappings := labelMapFrom pfx 0 (dedupFirst xs),
              counter := (dedupFirst xs).length, label_prefix := pfx })) := by
  refine ⟨fun l => List.Perm.refl l, fun l => List.reverse_perm l, ?_⟩
  exact claim_C3_determinism_amended testOracle id List.reverse "t.csv"
    FileFormat.Csv "h" ["arm"] [["x"], ["y"]] ProcessingOptions.default
    (fun l => List.Perm.refl l) (fun l => List.reverse_perm l)

/-- Counterexample to C3 as stated: two faithful (permutation-valued)
models of the `HashSet` iteration order yield `unique_values` lists in
different orders, so the two manifests are not byte-identical. -/
theorem claim_C3_counterexample :
    (∀ l : List String, List.Perm (id l) l)
    ∧ (∀ l : List String, List.Perm l.reverse l)
    ∧ ((read_with_recoding testOracle id "t.csv" ["arm"] [["x"], ["y"]]
          { ProcessingOptions.default with k_anonymity := 1 }).1.columns.map
        (fun col => col.unique_values)
        = [some [SafeValue.ShortString "x", SafeValue.ShortString "y"]])
    ∧ ((read_with_recoding testOracle List.reverse "t.csv" ["arm"]
          [["x"], ["y"]]
          { ProcessingOptions.default with k_anonymity := 1 }).1.columns.map
        (fun col => col.unique_values)
        = [some [SafeValue.ShortString "y", SafeValue.ShortString "x"]]) := by
  refine ⟨fun l => List.Perm.refl l, fun l => List.reverse_perm l, ?_, ?_⟩
  · decide
  · decide

end ErtManifest
